import Mathlib

/-!
# Verification of the AutoPkg runner (src/autopkg/autopkg-runner.py)

Shallow embedding of the script's logic:

* The recursive SFTP mirror (`_upload_directory`, `_ensure_remote_directory`,
  the `sftp.stat` / `sftp.mkdir` / `sftp.put` primitives) is embedded as
  explicit state passing over a `Remote` filesystem state, together with an
  event trace recording the SFTP operations that were attempted, in the order
  the script performs them.

* Remote paths: the script manipulates remote paths as `'/'`-joined strings
  (`f"{remote_dir.rstrip('/')}/{item}"`, and
  `remote_dir.rstrip('/').split('/')` with empty segments skipped in
  `_ensure_remote_directory`).  We represent a remote path by its list of
  segments (`RPath := List String`): appending one segment corresponds to the
  string join above, and the segment-by-segment walk of
  `_ensure_remote_directory` iterates over the prefixes of the segment list.
  The remote root `'/'` is the empty segment list `[]`.

* The orchestration side (`_run_command`, `configure_munki_repo`,
  `configure_trust_info`, `add_repositories`, `run_recipes`, `run`,
  `upload_repo`) is embedded with the outcomes of external subprocess
  invocations supplied by an oracle `CmdEnv : List String → CmdOutcome`.
  Python exceptions are represented by `PyErr`: `PyErr.exc` stands for an
  `Exception` (caught by `except Exception`), and `PyErr.sysExit` stands for
  `SystemExit` as raised by `sys.exit(n)` (NOT caught by `except Exception`,
  it terminates the process with exit code `n`).
-/

/-- A remote path, as its list of `'/'`-separated segments.
The remote root `'/'` is `[]`. -/
abbrev RPath := List String

/-- A local filesystem entry, as enumerated by `os.listdir` / `os.path.isdir`:
either a file with byte contents (bytes as naturals) or a directory with
named children. -/
inductive Entry where
  | file (content : List Nat)
  | dir (children : List (String × Entry))
deriving Repr

/-- The remote server's filesystem state: the set of existing directories and
the existing files with their contents.  The remote root `[]` always exists
and is a directory (it is never stored in `dirs`). -/
structure Remote where
  dirs : List RPath
  files : List (RPath × List Nat)
deriving Repr

/-- The empty remote server (only the root directory exists). -/
def Remote.empty : Remote := ⟨[], []⟩

/-- Content of the remote file at `p`, if present (`(p, c) ∈ files`, first
match wins: a later `put` shadows by consing in front). -/
def lookupFile (r : Remote) (p : RPath) : Option (List Nat) :=
  (r.files.find? (fun x => x.1 = p)).map (·.2)

/-- `sftp.stat p` succeeds (does not raise `FileNotFoundError`): `p` is the
root, an existing directory, or an existing file. -/
def statB (r : Remote) (p : RPath) : Bool :=
  p.isEmpty || r.dirs.any (fun d => d = p) || r.files.any (fun x => x.1 = p)

/-- The parent of `p` exists as a directory (or is the root). -/
def dirOrRoot (r : Remote) (q : RPath) : Bool :=
  q.isEmpty || r.dirs.any (fun d => d = q)

/-- `sftp.mkdir p` succeeds: the parent of `p` exists as a directory and `p`
itself does not exist yet. -/
def canMkdir (r : Remote) (p : RPath) : Bool :=
  dirOrRoot r p.dropLast && !(statB r p)

/-- `sftp.put local p` succeeds: the parent of `p` exists as a directory and
`p` is not an existing directory (an existing file is overwritten). -/
def canPut (r : Remote) (p : RPath) : Bool :=
  dirOrRoot r p.dropLast && !(r.dirs.any (fun d => d = p))

/-- Effect of a successful `sftp.put`: record the file (shadowing any
previous content at the same path). -/
def putOp (r : Remote) (p : RPath) (c : List Nat) : Remote :=
  { r with files := (p, c) :: r.files }

/-- SFTP operations attempted by the mirror, in order:
`ensure p` marks entry into `_ensure_remote_directory(sftp, p)`,
`mkdir p` an `sftp.mkdir(p)` attempt, and `put p` an `sftp.put(_, p)`
attempt. -/
inductive SEvent where
  | ensure (p : RPath)
  | mkdir (p : RPath)
  | put (p : RPath)
deriving Repr, DecidableEq

/-- The segment walk inside `_ensure_remote_directory`: for each remaining
part (empty parts skipped), extend `current`, `sftp.stat` it, and if absent
attempt `sftp.mkdir`, swallowing any mkdir failure (`except Exception:
logger.debug(...)`). -/
def ensureSegs (r : Remote) (current : RPath) : List String → Remote × List SEvent
  | [] => (r, [])
  | part :: rest =>
    if part = "" then ensureSegs r current rest
    else
      let cur := current ++ [part]
      if statB r cur then ensureSegs r cur rest
      else
        let r' := if canMkdir r cur then { r with dirs := cur :: r.dirs } else r
        let (r'', evs) := ensureSegs r' cur rest
        (r'', SEvent.mkdir cur :: evs)

/-- `_ensure_remote_directory(sftp, remote_dir)`: probe `remote_dir`; if the
probe raises `FileNotFoundError`, walk the path segment-by-segment from the
root, probing and creating each missing segment. -/
def ensure_remote_directory (r : Remote) (p : RPath) : Remote × List SEvent :=
  if statB r p then (r, [SEvent.ensure p])
  else
    let (r', evs) := ensureSegs r [] p
    (r', SEvent.ensure p :: evs)

/-- Errors that abort the tree walk (an exception propagating out of
`_upload_directory`): an `sftp.put` that fails. -/
inductive UErr where
  | putFailed (p : RPath)
deriving Repr, DecidableEq

mutual
/-- One entry of the walk of `_upload_directory`: a directory entry is
`_upload_directory(sftp, local_path, remote_path)` itself (ensure the remote
directory, then process the children); a file entry is the `sftp.put` branch.
Returns the new remote state, the trace of attempted operations, and the
propagating error, if any. -/
def uploadEntry (r : Remote) (e : Entry) (p : RPath) :
    Remote × List SEvent × Option UErr :=
  match e with
  | .file c =>
    if canPut r p then (putOp r p c, [SEvent.put p], none)
    else (r, [SEvent.put p], some (UErr.putFailed p))
  | .dir cs =>
    let (r1, evs1) := ensure_remote_directory r p
    let (r2, evs2, err) := uploadList r1 cs p
    (r2, evs1 ++ evs2, err)

/-- The `for item in os.listdir(local_dir)` loop of `_upload_directory`:
process the children in order; an error propagates immediately and aborts
the rest of the loop. -/
def uploadList (r : Remote) (items : List (String × Entry)) (p : RPath) :
    Remote × List SEvent × Option UErr :=
  match items with
  | [] => (r, [], none)
  | (name, e) :: rest =>
    let (r1, evs1, err1) := uploadEntry r e (p ++ [name])
    match err1 with
    | some er => (r1, evs1, some er)
    | none =>
      let (r2, evs2, err2) := uploadList r1 rest p
      (r2, evs1 ++ evs2, err2)
end

mutual
/-- Locate a file in a local tree by its relative segment path (first
matching child name wins, as in a real directory where names are unique). -/
def findFileEntry : Entry → RPath → Option (List Nat)
  | .file c, [] => some c
  | .file _, _ :: _ => none
  | .dir cs, q => findFileList cs q

/-- List-level helper of `findFileEntry`. -/
def findFileList : List (String × Entry) → RPath → Option (List Nat)
  | _, [] => none
  | [], _ :: _ => none
  | (m, e) :: cs', n :: rest =>
    if n = m then findFileEntry e rest else findFileList cs' (n :: rest)
end

mutual
/-- Locate a subdirectory in a local tree by its relative segment path. -/
def findDirEntry : Entry → RPath → Option (List (String × Entry))
  | .file _, _ => none
  | .dir cs, [] => some cs
  | .dir cs, q => findDirList cs q

/-- List-level helper of `findDirEntry`. -/
def findDirList : List (String × Entry) → RPath → Option (List (String × Entry))
  | _, [] => none
  | [], _ :: _ => none
  | (m, e) :: cs', n :: rest =>
    if n = m then findDirEntry e rest else findDirList cs' (n :: rest)
end

mutual
/-- Wellformedness of a local tree as produced by a real filesystem walk:
at every level the entry names are nonempty and pairwise distinct
(`os.listdir` can return neither `''` nor duplicates). -/
def wfEntry : Entry → Bool
  | .file _ => true
  | .dir cs => wfList cs

/-- Wellformedness of a list of named children (see `wfEntry`). -/
def wfList : List (String × Entry) → Bool
  | [] => true
  | (n, e) :: rest =>
    (n != "") && !(rest.any (fun x => x.1 = n)) && wfEntry e && wfList rest
end

/-- Outcome of one external subprocess invocation, supplied by the oracle:
`ok` (exit code 0 with the given stdout), `fail` (nonzero exit code with
stdout/stderr; `subprocess.run(check=True)` raises `CalledProcessError` on
it), or `notFound` (the binary is missing: `subprocess.run` raises
`FileNotFoundError`). -/
inductive CmdOutcome where
  | ok (stdout : String)
  | fail (code : Nat) (stdout stderr : String)
  | notFound
deriving Repr, DecidableEq

/-- Oracle giving the outcome of each external command, by its argv. -/
abbrev CmdEnv := List String → CmdOutcome

/-- A Python exception as it propagates through the script: `exc` is any
`Exception` (caught by `except Exception`), `sysExit n` is the `SystemExit`
raised by `sys.exit(n)` (not caught by `except Exception`; the process
terminates with exit code `n`). -/
inductive PyErr where
  | exc (msg : String)
  | sysExit (code : Nat)
deriving Repr, DecidableEq

/-- The result object of `subprocess.run`: exit code and captured stdout
(the model treats output as always captured). -/
structure CmdResult where
  returncode : Nat
  stdout : String
deriving Repr, DecidableEq

/-- Observable actions of the orchestration side, in order: `cmd args` is a
subprocess invocation through `_run_command`, `runRecipe name` the direct
`subprocess.run(['autopkg', 'run', '-v', name])` of `run_recipes`,
`setTrustEnv` the `os.environ` write in `configure_trust_info`,
`repoAlready`/`warnRepoFailed` the two log outcomes of the repo-list
disambiguation, and the `warn…` actions the warnings the claims refer to. -/
inductive TAction where
  | cmd (args : List String)
  | runRecipe (name : String)
  | setTrustEnv
  | repoAlready (name : String)
  | warnRepoFailed (name : String)
  | warnNoRepoPath
  | warnRepoPathMissing
  | warnSkipRepo
deriving Repr, DecidableEq

/-- Python truthiness of an optional string setting (`config.get(k)`):
missing keys and empty strings are falsy. -/
def truthyS : Option String → Option String
  | none => none
  | some s => if s = "" then none else some s

/-- `os.path.isabs` over the string path model: the path starts with `'/'`. -/
def isAbsPath (p : String) : Bool :=
  match p.data with
  | [] => false
  | c :: _ => c = '/'

/-- Path resolution in `configure_munki_repo` / `upload_repo`:
`os.path.join(self.script_dir, repo_path)` for relative paths, then
`os.path.abspath` (normalization is not modelled; `scriptDir` is taken to be
absolute and normalized). -/
def resolvePath (scriptDir p : String) : String :=
  if isAbsPath p then p else scriptDir ++ "/" ++ p

/-- `AutoPkgRunner._run_command(command, check, capture_output=True)`:
returns the result object on success; on `CalledProcessError` re-raises when
`check` is set (with `check=False` `subprocess.run` does not raise on a
nonzero exit and the result object is returned; the `return None` fallback
of the source is unreachable); on `FileNotFoundError` calls `sys.exit(1)`.
Also records the invocation in the trace. -/
def run_command (env : CmdEnv) (cmd : List String) (check : Bool) :
    List TAction × Except PyErr (Option CmdResult) :=
  ([TAction.cmd cmd],
    match env cmd with
    | .ok out => .ok (some ⟨0, out⟩)
    | .fail code out _errOut =>
      if check then .error (.exc "CalledProcessError") else .ok (some ⟨code, out⟩)
    | .notFound => .error (.sysExit 1))

/-- `AutoPkgRunner.configure_munki_repo()`: if `repo_path` is falsy or the
resolved path does not exist, log a warning and return; otherwise run
`defaults write com.github.autopkg MUNKI_REPO <path>`; any `Exception` from
it is logged and RE-RAISED (`raise`), and a `SystemExit` from `_run_command`
propagates as well. -/
def configure_munki_repo (env : CmdEnv) (repoPath : Option String)
    (scriptDir : String) (localExists : String → Bool) :
    List TAction × Except PyErr Unit :=
  match truthyS repoPath with
  | none => ([TAction.warnNoRepoPath], .ok ())
  | some p =>
    let rp := resolvePath scriptDir p
    if localExists rp then
      let (t, res) := run_command env
        ["defaults", "write", "com.github.autopkg", "MUNKI_REPO", rp] true
      match res with
      | .ok _ => (t, .ok ())
      | .error e => (t, .error e)
    else ([TAction.warnRepoPathMissing], .ok ())

/-- `AutoPkgRunner.configure_trust_info()`: run
`defaults write com.github.autopkg FAIL_RECIPES_WITHOUT_TRUST_INFO -bool
false` and then mirror the setting into `os.environ`; an `Exception` is
caught and logged as a warning (non-fatal), while a `SystemExit` from
`_run_command` still propagates. -/
def configure_trust_info (env : CmdEnv) : List TAction × Except PyErr Unit :=
  let (t, res) := run_command env
    ["defaults", "write", "com.github.autopkg",
     "FAIL_RECIPES_WITHOUT_TRUST_INFO", "-bool", "false"] true
  match res with
  | .ok _ => (t ++ [TAction.setTrustEnv], .ok ())
  | .error (.exc _) => (t, .ok ())
  | .error (.sysExit n) => (t, .error (.sysExit n))

/-- One config entry of the `repos` list (`repo.get('name')`,
`repo.get('url')`). -/
structure RepoEntry where
  name : Option String
  url : Option String
deriving Repr, DecidableEq

/-- Substring test (`name in repo_list_output`). -/
def subStr (needle hay : String) : Bool :=
  decide (needle.data <:+: hay.data)

/-- The `try` body of one iteration of the `add_repositories` loop for a
valid entry: `autopkg repo-add <name>` with `check=False`; on a nonzero
exit, disambiguate via `autopkg repo-list` (`check=True`) and a substring
check of the name/url against its stdout.  Returns the actions and, when a
`SystemExit` escapes (the `FileNotFoundError` handler of `_run_command`),
the uncaught error; an `Exception` is caught by the `except Exception` of
the loop body and yields `none`. -/
def addRepoStep (env : CmdEnv) (name url : String) :
    List TAction × Option PyErr :=
  match run_command env ["autopkg", "repo-add", name] false with
  | (t, .ok res) =>
    if (match res with | some rr => rr.returncode != 0 | none => false) then
      match run_command env ["autopkg", "repo-list"] true with
      | (t2, .ok lstRes) =>
        let out := match lstRes with | some rr => rr.stdout | none => ""
        let ev := if subStr name out || subStr url out then
            TAction.repoAlready name
          else TAction.warnRepoFailed name
        (t ++ t2 ++ [ev], none)
      | (t2, .error (.exc _)) => (t ++ t2, none)
      | (t2, .error (.sysExit n)) => (t ++ t2, some (.sysExit n))
    else (t, none)
  | (t, .error (.exc _)) => (t, none)
  | (t, .error (.sysExit n)) => (t, some (.sysExit n))

/-- `AutoPkgRunner.add_repositories()`: for each entry, skip invalid ones
with a warning; otherwise run one `addRepoStep`.  Every `Exception` inside
the loop body is caught (`except Exception`) and the loop continues with the
next entry; a `SystemExit` (from `_run_command`'s `FileNotFoundError`
handler) is not caught and aborts the loop. -/
def add_repositories (env : CmdEnv) : List RepoEntry → List TAction × Except PyErr Unit
  | [] => ([], .ok ())
  | repo :: rest =>
    match truthyS repo.name, truthyS repo.url with
    | some name, some url =>
      match addRepoStep env name url with
      | (t, some e) => (t, .error e)
      | (t, none) =>
        let (tr, r) := add_repositories env rest
        (t ++ tr, r)
    | _, _ =>
      let (tr, r) := add_repositories env rest
      (TAction.warnSkipRepo :: tr, r)

/-- `AutoPkgRunner.run_recipes()`: for each recipe, skip falsy names, then
invoke `subprocess.run(['autopkg', 'run', '-v', recipe], check=False, env=…)`
directly.  Every outcome continues to the next recipe: a zero exit logs
success, a nonzero exit logs an error, and any raised `Exception` (including
`FileNotFoundError` when the tool is missing) is caught by the per-recipe
`except Exception`.  The function can therefore not raise. -/
def run_recipes (env : CmdEnv) : List String → List TAction
  | [] => []
  | r :: rest =>
    if r = "" then run_recipes env rest
    else
      match env ["autopkg", "run", "-v", r] with
      | .ok _ => TAction.runRecipe r :: run_recipes env rest
      | .fail _ _ _ => TAction.runRecipe r :: run_recipes env rest
      | .notFound => TAction.runRecipe r :: run_recipes env rest

/-- Full default-mode configuration (the parts of `config.yaml` the default
run reads). -/
structure Config where
  repo_path : Option String
  repos : List RepoEntry
  recipes : List String
  sftp_host : Option String
  sftp_port : Option Nat
  sftp_user : Option String
  sftp_password : Option String
deriving Repr, DecidableEq

/-- `AutoPkgRunner.run()`: the default-mode sequence
`configure_munki_repo` → `configure_trust_info` → `add_repositories` →
`run_recipes` inside `try: … except Exception: sys.exit(1)`.  Returns the
action trace and the process exit code: `0` when the sequence completes, `1`
when an `Exception` escapes a step, and `n` when a `sys.exit(n)` raised
inside a step propagates (a `SystemExit` is not an `Exception`). -/
def runAll (env : CmdEnv) (cfg : Config) (scriptDir : String)
    (localExists : String → Bool) : List TAction × Nat :=
  let (t1, r1) := configure_munki_repo env cfg.repo_path scriptDir localExists
  match r1 with
  | .error (.exc _) => (t1, 1)
  | .error (.sysExit n) => (t1, n)
  | .ok () =>
    let (t2, r2) := configure_trust_info env
    match r2 with
    | .error (.exc _) => (t1 ++ t2, 1)
    | .error (.sysExit n) => (t1 ++ t2, n)
    | .ok () =>
      let (t3, r3) := add_repositories env cfg.repos
      match r3 with
      | .error (.exc _) => (t1 ++ t2 ++ t3, 1)
      | .error (.sysExit n) => (t1 ++ t2 ++ t3, n)
      | .ok () =>
        let t4 := run_recipes env cfg.recipes
        (t1 ++ t2 ++ t3 ++ t4, 0)

/-- The recipes actually attempted, read off an action trace. -/
def attemptedRecipes (t : List TAction) : List String :=
  t.filterMap (fun a => match a with | TAction.runRecipe r => some r | _ => none)

/-- Network-side behavior oracle for `upload_repo`: whether the
`paramiko.Transport((host, port))` constructor, `start_client`,
`auth_password` and `SFTPClient.from_transport` calls succeed, and whether
the two `close()` calls in the `finally` block raise. -/
structure NetEnv where
  transportOk : Bool
  startOk : Bool
  authOk : Bool
  sftpOk : Bool
  closeSftpOk : Bool
  closeTransportOk : Bool
deriving Repr, DecidableEq

/-- Observable actions of `upload_repo`, in order.  `openTransport host port`
records a successfully constructed `paramiko.Transport` (the live network
connection); `openSftp` a successfully opened SFTP channel; `walk e` the SFTP
operations of the tree walk; `closeSftp` / `closeTransport` the `close()`
attempts of the `finally` block. -/
inductive RAction where
  | openTransport (host : String) (port : Nat)
  | startClient
  | auth
  | openSftp
  | walk (e : SEvent)
  | closeSftp
  | closeTransport
deriving Repr, DecidableEq

/-- Process outcome of `upload_repo`: `finished` is a normal return (the
process then exits 0 from `main`), `exited n` is `sys.exit(n)`. -/
inductive Outcome where
  | finished
  | exited (code : Nat)
deriving Repr, DecidableEq

/-- A `close()` call in the `finally` block: `try: h.close() except: pass` —
a raising close has no observable effect (the bare `except` swallows it). -/
def closeAttempt (ok : Bool) : Unit :=
  match (if ok then Except.ok () else Except.error ()) with
  | _ => ()

/-- `AutoPkgRunner.upload_repo()`.  Inputs: `paramikoAvailable` models
the paramiko availability guard; `cfg` the loaded config; `scriptDir` the script directory for
path resolution; `localTree` is `some children` when the resolved
`repo_path` exists on disk and is the directory with those children, `none`
when `os.path.exists` is false; `net` the connection oracle; `r0` the
initial remote state.  The structure mirrors the source: missing
`sftp_host`/`sftp_user`/`sftp_password` (`sftp_port` defaults to 22 and is
NOT checked), missing or nonexistent `repo_path` each `sys.exit(1)` before
the `try` block; then transport setup, authentication, SFTP channel, the
recursive walk from remote root `'/'` (= `[]`), the `except` handlers
(`AuthenticationException`, `SSHException`, `Exception` → `sys.exit(1)`),
and the `finally` teardown closing whichever handles were assigned. -/
def upload_repo (paramikoAvailable : Bool) (cfg : Config) (scriptDir : String)
    (localTree : Option (List (String × Entry))) (net : NetEnv) (r0 : Remote) :
    Outcome × List RAction × Remote :=
  if !paramikoAvailable then (.exited 1, [], r0)
  else
    match truthyS cfg.sftp_host, truthyS cfg.sftp_user, truthyS cfg.sftp_password with
    | some host, some _user, some _pw =>
      let port := cfg.sftp_port.getD 22
      match truthyS cfg.repo_path with
      | none => (.exited 1, [], r0)
      | some rp0 =>
        let _rp := resolvePath scriptDir rp0
        match localTree with
        | none => (.exited 1, [], r0)
        | some tree =>
          if !net.transportOk then (.exited 1, [], r0)
          else
            let t0 := [RAction.openTransport host port]
            if !net.startOk then
              -- SSHException from start_client → finally closes transport → exit 1
              let _c := closeAttempt net.closeTransportOk
              (.exited 1, t0 ++ [RAction.startClient, RAction.closeTransport], r0)
            else if !net.authOk then
              let _c := closeAttempt net.closeTransportOk
              (.exited 1, t0 ++ [RAction.startClient, RAction.auth,
                RAction.closeTransport], r0)
            else if !net.sftpOk then
              let _c := closeAttempt net.closeTransportOk
              (.exited 1, t0 ++ [RAction.startClient, RAction.auth,
                RAction.closeTransport], r0)
            else
              let t1 := t0 ++ [RAction.startClient, RAction.auth, RAction.openSftp]
              let (r', evs, err) := uploadEntry r0 (.dir tree) []
              let _c1 := closeAttempt net.closeSftpOk
              let _c2 := closeAttempt net.closeTransportOk
              let tEnd := [RAction.closeSftp, RAction.closeTransport]
              match err with
              | some _ => (.exited 1, t1 ++ evs.map RAction.walk ++ tEnd, r')
              | none => (.finished, t1 ++ evs.map RAction.walk ++ tEnd, r')
    | _, _, _ => (.exited 1, [], r0)

/-! ## Path-extension order -/

/-- `pathLe p q`: the remote path `q` lies at or under the directory `p`. -/
def pathLe (p q : RPath) : Prop := ∃ t, p ++ t = q

theorem pathLe_refl (p : RPath) : pathLe p p := ⟨[], List.append_nil p⟩

theorem pathLe_nil (q : RPath) : pathLe [] q := ⟨q, rfl⟩

theorem pathLe_app (p t : RPath) : pathLe p (p ++ t) := ⟨t, rfl⟩

theorem pathLe_trans {p q s : RPath} (h1 : pathLe p q) (h2 : pathLe q s) :
    pathLe p s := by
  obtain ⟨t1, rfl⟩ := h1
  obtain ⟨t2, rfl⟩ := h2
  exact ⟨t1 ++ t2, (List.append_assoc p t1 t2).symm⟩

theorem pathLe_of_snoc {p q : RPath} {n : String} (h : pathLe (p ++ [n]) q) :
    pathLe p q :=
  pathLe_trans (pathLe_app p [n]) h

theorem pathLe_snoc_inj {base q : RPath} {n m : String}
    (h1 : pathLe (base ++ [n]) q) (h2 : pathLe (base ++ [m]) q) : n = m := by
  obtain ⟨t1, h1⟩ := h1
  obtain ⟨t2, h2⟩ := h2
  rw [← h2] at h1
  rw [List.append_assoc, List.append_assoc] at h1
  have h3 := List.append_cancel_left h1
  simpa using congrArg (fun l => l.head?) h3

theorem pathLe_length {p q : RPath} (h : pathLe p q) : p.length ≤ q.length := by
  obtain ⟨t, rfl⟩ := h
  simp

theorem pathLe_antisymm {p q : RPath} (h1 : pathLe p q) (h2 : pathLe q p) :
    p = q := by
  obtain ⟨t, rfl⟩ := h1
  have := pathLe_length h2
  simp at this
  simp [this]

theorem pathLe_split {base q : RPath} (h1 : pathLe base q)
    (h2 : base ≠ q) : ∃ x t, q = (base ++ [x]) ++ t := by
  obtain ⟨u, rfl⟩ := h1
  cases u with
  | nil => simp at h2
  | cons x t => exact ⟨x, t, by simp⟩

/-! ## Basic facts about the remote-state primitives -/

theorem lookupFile_eq_of_files_eq {r r' : Remote} (h : r'.files = r.files)
    (q : RPath) : lookupFile r' q = lookupFile r q := by
  simp [lookupFile, h]

theorem lookupFile_putOp_self (r : Remote) (p : RPath) (c : List Nat) :
    lookupFile (putOp r p c) p = some c := by
  simp [lookupFile, putOp, List.find?]

theorem lookupFile_putOp_ne (r : Remote) (p : RPath) (c : List Nat)
    {q : RPath} (h : q ≠ p) : lookupFile (putOp r p c) q = lookupFile r q := by
  simp only [lookupFile, putOp, List.find?]
  have : ¬ ((p, c).1 = q) := fun hc => h (by simpa using hc.symm)
  simp [this]

theorem ensureSegs_files (r : Remote) (cur : RPath) (l : List String) :
    (ensureSegs r cur l).1.files = r.files := by
  induction l generalizing r cur with
  | nil => simp [ensureSegs]
  | cons part rest ih =>
    by_cases hp : part = ""
    · simp [ensureSegs, hp, ih]
    · by_cases hs : statB r (cur ++ [part])
      · simp [ensureSegs, hp, hs, ih]
      · by_cases hm : canMkdir r (cur ++ [part]) <;>
          simp [ensureSegs, hp, hs, hm, ih]

theorem ensure_files (r : Remote) (p : RPath) :
    (ensure_remote_directory r p).1.files = r.files := by
  by_cases hs : statB r p <;> simp [ensure_remote_directory, hs, ensureSegs_files]

theorem ensureSegs_noPut (r : Remote) (cur : RPath) (l : List String)
    (x : RPath) : SEvent.put x ∉ (ensureSegs r cur l).2 := by
  induction l generalizing r cur with
  | nil => simp [ensureSegs]
  | cons part rest ih =>
    by_cases hp : part = ""
    · simpa [ensureSegs, hp] using ih r cur
    · by_cases hs : statB r (cur ++ [part])
      · simpa [ensureSegs, hp, hs] using ih r (cur ++ [part])
      · by_cases hm : canMkdir r (cur ++ [part]) <;>
          simpa [ensureSegs, hp, hs, hm] using
            ih _ (cur ++ [part])

theorem ensure_noPut (r : Remote) (p : RPath) (x : RPath) :
    SEvent.put x ∉ (ensure_remote_directory r p).2 := by
  by_cases hs : statB r p <;>
    simp [ensure_remote_directory, hs, ensureSegs_noPut]

theorem ensureSegs_dirs_mono (r : Remote) (cur : RPath) (l : List String)
    {d : RPath} (h : d ∈ r.dirs) : d ∈ (ensureSegs r cur l).1.dirs := by
  induction l generalizing r cur with
  | nil => simpa [ensureSegs]
  | cons part rest ih =>
    by_cases hp : part = ""
    · simpa [ensureSegs, hp] using ih r cur h
    · by_cases hs : statB r (cur ++ [part])
      · simpa [ensureSegs, hp, hs] using ih r (cur ++ [part]) h
      · by_cases hm : canMkdir r (cur ++ [part])
        · simpa [ensureSegs, hp, hs, hm] using
            ih { r with dirs := (cur ++ [part]) :: r.dirs } (cur ++ [part])
              (by simp [h])
        · simpa [ensureSegs, hp, hs, hm] using ih r (cur ++ [part]) h

theorem ensure_dirs_mono (r : Remote) (p : RPath) {d : RPath}
    (h : d ∈ r.dirs) : d ∈ (ensure_remote_directory r p).1.dirs := by
  by_cases hs : statB r p <;>
    simp [ensure_remote_directory, hs, ensureSegs_dirs_mono, h]

/-! ## Unfolding lemmas for the mirror walk -/

theorem uploadEntry_file (r : Remote) (c : List Nat) (p : RPath) :
    uploadEntry r (.file c) p =
      if canPut r p then (putOp r p c, [SEvent.put p], none)
      else (r, [SEvent.put p], some (UErr.putFailed p)) := by
  unfold uploadEntry
  rfl

theorem uploadEntry_dir (r : Remote) (cs : List (String × Entry)) (p : RPath) :
    uploadEntry r (.dir cs) p =
      ((uploadList (ensure_remote_directory r p).1 cs p).1,
       (ensure_remote_directory r p).2 ++
         (uploadList (ensure_remote_directory r p).1 cs p).2.1,
       (uploadList (ensure_remote_directory r p).1 cs p).2.2) := by
  unfold uploadEntry
  rcases ensure_remote_directory r p with ⟨r1, evs1⟩
  rcases h : uploadList r1 cs p with ⟨r2, evs2, err⟩
  simp [h]

theorem uploadList_nil (r : Remote) (p : RPath) :
    uploadList r [] p = (r, [], none) := by
  unfold uploadList
  rfl

theorem uploadList_cons_err (r r1 : Remote) (name : String) (e : Entry)
    (rest : List (String × Entry)) (p : RPath) (evs1 : List SEvent)
    (er : UErr) (h : uploadEntry r e (p ++ [name]) = (r1, evs1, some er)) :
    uploadList r ((name, e) :: rest) p = (r1, evs1, some er) := by
  unfold uploadList
  rw [h]

theorem uploadList_cons_ok (r r1 : Remote) (name : String) (e : Entry)
    (rest : List (String × Entry)) (p : RPath) (evs1 : List SEvent)
    (h : uploadEntry r e (p ++ [name]) = (r1, evs1, none)) :
    uploadList r ((name, e) :: rest) p =
      ((uploadList r1 rest p).1, evs1 ++ (uploadList r1 rest p).2.1,
       (uploadList r1 rest p).2.2) := by
  conv_lhs => unfold uploadList
  simp [h]

/-! ## Frame and monotonicity properties of the walk -/

mutual
/-- The walk only ever adds file entries (`sftp.put` never deletes). -/
theorem uploadEntry_files_grow (r : Remote) (e : Entry) (p : RPath) :
    ∃ fs, (uploadEntry r e p).1.files = fs ++ r.files := by
  cases e with
  | file c =>
    rw [uploadEntry_file]
    by_cases h : canPut r p
    · exact ⟨[(p, c)], by simp [h, putOp]⟩
    · exact ⟨[], by simp [h]⟩
  | dir cs =>
    rw [uploadEntry_dir]
    obtain ⟨fs, hfs⟩ := uploadList_files_grow (ensure_remote_directory r p).1 cs p
    exact ⟨fs, by rw [hfs, ensure_files]⟩

/-- List-level version of `uploadEntry_files_grow`. -/
theorem uploadList_files_grow (r : Remote) (items : List (String × Entry))
    (p : RPath) : ∃ fs, (uploadList r items p).1.files = fs ++ r.files := by
  cases items with
  | nil => exact ⟨[], by simp [uploadList_nil]⟩
  | cons hd rest =>
    obtain ⟨name, e⟩ := hd
    rcases h1 : uploadEntry r e (p ++ [name]) with ⟨r1, evs1, err1⟩
    obtain ⟨fs1, hfs1⟩ := uploadEntry_files_grow r e (p ++ [name])
    rw [h1] at hfs1
    cases err1 with
    | some er =>
      rw [uploadList_cons_err r r1 name e rest p evs1 er h1]
      exact ⟨fs1, hfs1⟩
    | none =>
      rw [uploadList_cons_ok r r1 name e rest p evs1 h1]
      obtain ⟨fs2, hfs2⟩ := uploadList_files_grow r1 rest p
      exact ⟨fs2 ++ fs1, by rw [hfs2, hfs1, List.append_assoc]⟩
end

mutual
/-- The walk never removes a remote directory. -/
theorem uploadEntry_dirs_mono (r : Remote) (e : Entry) (p : RPath)
    {d : RPath} (h : d ∈ r.dirs) : d ∈ (uploadEntry r e p).1.dirs := by
  cases e with
  | file c =>
    rw [uploadEntry_file]
    by_cases hc : canPut r p <;> simp [hc, putOp, h]
  | dir cs =>
    rw [uploadEntry_dir]
    exact uploadList_dirs_mono (ensure_remote_directory r p).1 cs p
      (ensure_dirs_mono r p h)

/-- List-level version of `uploadEntry_dirs_mono`. -/
theorem uploadList_dirs_mono (r : Remote) (items : List (String × Entry))
    (p : RPath) {d : RPath} (h : d ∈ r.dirs) :
    d ∈ (uploadList r items p).1.dirs := by
  cases items with
  | nil => simpa [uploadList_nil]
  | cons hd rest =>
    obtain ⟨name, e⟩ := hd
    rcases h1 : uploadEntry r e (p ++ [name]) with ⟨r1, evs1, err1⟩
    have hm1 : d ∈ r1.dirs := by
      have := uploadEntry_dirs_mono r e (p ++ [name]) h
      rwa [h1] at this
    cases err1 with
    | some er =>
      rw [uploadList_cons_err r r1 name e rest p evs1 er h1]
      exact hm1
    | none =>
      rw [uploadList_cons_ok r r1 name e rest p evs1 h1]
      exact uploadList_dirs_mono r1 rest p hm1
end

mutual
/-- Frame property: the walk below remote directory `p` does not change the
content seen at any path not under `p`. -/
theorem uploadEntry_frame (r : Remote) (e : Entry) (p : RPath) {q : RPath}
    (h : ¬ pathLe p q) : lookupFile (uploadEntry r e p).1 q = lookupFile r q := by
  cases e with
  | file c =>
    rw [uploadEntry_file]
    by_cases hc : canPut r p
    · simp only [hc, if_true]
      exact lookupFile_putOp_ne r p c (fun hq => h (hq ▸ pathLe_refl p))
    · simp [hc]
  | dir cs =>
    rw [uploadEntry_dir]
    have hl : ∀ nm e', (nm, e') ∈ cs → ¬ pathLe (p ++ [nm]) q :=
      fun nm _ _ hle => h (pathLe_of_snoc hle)
    rw [uploadList_frame (ensure_remote_directory r p).1 cs p hl]
    exact lookupFile_eq_of_files_eq (ensure_files r p) q

/-- List-level version of `uploadEntry_frame`: if `q` is under none of the
children's remote paths, its content is unchanged. -/
theorem uploadList_frame (r : Remote) (items : List (String × Entry))
    (p : RPath) {q : RPath}
    (h : ∀ nm e', (nm, e') ∈ items → ¬ pathLe (p ++ [nm]) q) :
    lookupFile (uploadList r items p).1 q = lookupFile r q := by
  cases items with
  | nil => simp [uploadList_nil]
  | cons hd rest =>
    obtain ⟨name, e⟩ := hd
    rcases h1 : uploadEntry r e (p ++ [name]) with ⟨r1, evs1, err1⟩
    have hf1 : lookupFile r1 q = lookupFile r q := by
      have := uploadEntry_frame r e (p ++ [name])
        (h name e (by simp))
      rwa [h1] at this
    cases err1 with
    | some er =>
      rw [uploadList_cons_err r r1 name e rest p evs1 er h1]
      exact hf1
    | none =>
      rw [uploadList_cons_ok r r1 name e rest p evs1 h1]
      rw [uploadList_frame r1 rest p
        (fun nm e' hm => h nm e' (List.mem_cons_of_mem _ hm))]
      exact hf1
end

/-! ## Round-trip correctness of the mirror (C1) -/

theorem wfList_cons {n : String} {e : Entry} {rest : List (String × Entry)}
    (h : wfList ((n, e) :: rest) = true) :
    n ≠ "" ∧ (∀ x ∈ rest, x.1 ≠ n) ∧ wfEntry e = true ∧ wfList rest = true := by
  have h' := h
  simp only [wfList, Bool.and_eq_true, bne_iff_ne, ne_eq, Bool.not_eq_true'] at h'
  obtain ⟨⟨⟨hn, hany⟩, hwfe⟩, hwfl⟩ := h'
  refine ⟨hn, ?_, hwfe, hwfl⟩
  intro x hx
  have := List.any_eq_false.mp hany x hx
  simpa using this

mutual
/-- If the walk of a subtree succeeds, every file of the subtree is present
at its remote path with its local content. -/
theorem uploadEntry_roundtrip (r : Remote) (e : Entry) (p : RPath) {q : RPath}
    {c : List Nat} (hwf : wfEntry e = true) (hf : findFileEntry e q = some c)
    (hs : (uploadEntry r e p).2.2 = none) :
    lookupFile (uploadEntry r e p).1 (p ++ q) = some c := by
  cases e with
  | file c0 =>
    cases q with
    | nil =>
      simp only [findFileEntry, Option.some.injEq] at hf
      rw [uploadEntry_file] at hs ⊢
      by_cases hc : canPut r p
      · simp only [hc, if_true, List.append_nil]
        rw [lookupFile_putOp_self, hf]
      · simp [hc] at hs
    | cons a t => simp [findFileEntry] at hf
  | dir cs =>
    rw [uploadEntry_dir] at hs ⊢
    have hwf' : wfList cs = true := by simpa [wfEntry] using hwf
    have hf' : findFileList cs q = some c := by simpa [findFileEntry] using hf
    exact uploadList_roundtrip _ cs p hwf' hf' hs

/-- List-level version of `uploadEntry_roundtrip`. -/
theorem uploadList_roundtrip (r : Remote) (items : List (String × Entry))
    (p : RPath) {q : RPath} {c : List Nat} (hwf : wfList items = true)
    (hf : findFileList items q = some c)
    (hs : (uploadList r items p).2.2 = none) :
    lookupFile (uploadList r items p).1 (p ++ q) = some c := by
  cases items with
  | nil => cases q <;> simp [findFileList] at hf
  | cons hd rest =>
    obtain ⟨m, e⟩ := hd
    cases q with
    | nil => simp [findFileList] at hf
    | cons n restq =>
      obtain ⟨-, hnames, hwfe, hwfr⟩ := wfList_cons hwf
      rcases h1 : uploadEntry r e (p ++ [m]) with ⟨r1, evs1, err1⟩
      cases err1 with
      | some er =>
        rw [uploadList_cons_err r r1 m e rest p evs1 er h1] at hs
        simp at hs
      | none =>
        rw [uploadList_cons_ok r r1 m e rest p evs1 h1] at hs ⊢
        simp only at hs ⊢
        by_cases hnm : n = m
        · subst hnm
          have hfe : findFileEntry e restq = some c := by
            simpa [findFileList] using hf
          have hchild :
              lookupFile (uploadEntry r e (p ++ [n])).1 ((p ++ [n]) ++ restq)
                = some c :=
            uploadEntry_roundtrip r e (p ++ [n]) hwfe hfe (by rw [h1])
          rw [h1] at hchild
          have hfr :
              lookupFile (uploadList r1 rest p).1 ((p ++ [n]) ++ restq)
                = lookupFile r1 ((p ++ [n]) ++ restq) := by
            refine uploadList_frame r1 rest p ?_
            intro nm e' hm hle
            exact hnames (nm, e') hm
              (pathLe_snoc_inj hle (pathLe_app (p ++ [n]) restq))
          have hassoc : p ++ n :: restq = (p ++ [n]) ++ restq := by simp
          rw [hassoc, hfr, hchild]
        · have hf' : findFileList rest (n :: restq) = some c := by
            simpa [findFileList, hnm] using hf
          exact uploadList_roundtrip r1 rest p hwfr hf' hs
end

/-- C1: for every local directory tree and target remote root, after the
recursive upload operation (`_upload_directory`) completes successfully,
every file of the tree exists on the remote server at the corresponding path
under the root with byte content identical to the local file. -/
theorem C1_mirror_roundtrip (r : Remote) (tree : List (String × Entry))
    (root : RPath) (hwf : wfEntry (.dir tree) = true) (q : RPath)
    (c : List Nat) (hq : findFileEntry (.dir tree) q = some c)
    (hs : (uploadEntry r (.dir tree) root).2.2 = none) :
    lookupFile (uploadEntry r (.dir tree) root).1 (root ++ q) = some c :=
  uploadEntry_roundtrip r (.dir tree) root hwf hq hs

/-- Witness for C1 at a concrete two-level tree uploaded into an empty
remote server. -/
theorem C1_mirror_roundtrip_witness :
    wfEntry (.dir [("a.txt", Entry.file [9]),
      ("sub", Entry.dir [("b", Entry.file [7])])]) = true
    ∧ findFileEntry (.dir [("a.txt", Entry.file [9]),
        ("sub", Entry.dir [("b", Entry.file [7])])]) ["sub", "b"] = some [7]
    ∧ (uploadEntry Remote.empty (.dir [("a.txt", Entry.file [9]),
        ("sub", Entry.dir [("b", Entry.file [7])])]) []).2.2 = none
    ∧ lookupFile (uploadEntry Remote.empty (.dir [("a.txt", Entry.file [9]),
        ("sub", Entry.dir [("b", Entry.file [7])])]) []).1
        ([] ++ ["sub", "b"]) = some [7] :=
  ⟨by decide, by decide, by decide,
    C1_mirror_roundtrip Remote.empty
      [("a.txt", Entry.file [9]), ("sub", Entry.dir [("b", Entry.file [7])])]
      [] (by decide) ["sub", "b"] [7] (by decide) (by decide)⟩

/-! ## Ordering of operations in the walk (C2) -/

theorem ensure_trace_head (r : Remote) (p : RPath) :
    ∃ t0, (ensure_remote_directory r p).2 = SEvent.ensure p :: t0 := by
  by_cases hs : statB r p
  · exact ⟨[], by simp [ensure_remote_directory, hs]⟩
  · exact ⟨(ensureSegs r [] p).2, by simp [ensure_remote_directory, hs]⟩

mutual
/-- If the walk of a subtree at remote path `p` succeeds, then for every file
of the subtree at relative path `qs ++ [n]`, the trace ensures the file's
parent directory `p ++ qs` strictly before the file's `sftp.put`. -/
theorem uploadEntry_put_order (r : Remote) (e : Entry) (p : RPath)
    {q : RPath} {c : List Nat} (hf : findFileEntry e q = some c)
    (hs : (uploadEntry r e p).2.2 = none) :
    SEvent.put (p ++ q) ∈ (uploadEntry r e p).2.1 ∧
    ∀ qs n, q = qs ++ [n] →
      List.Sublist [SEvent.ensure (p ++ qs), SEvent.put (p ++ q)]
        (uploadEntry r e p).2.1 := by
  cases e with
  | file c0 =>
    cases q with
    | nil =>
      rw [uploadEntry_file] at hs ⊢
      by_cases hc : canPut r p
      · constructor
        · simp [hc]
        · intro qs n hq
          exact absurd (congrArg List.length hq) (by simp)
      · simp [hc] at hs
    | cons a t => simp [findFileEntry] at hf
  | dir cs =>
    rw [uploadEntry_dir] at hs ⊢
    simp only at hs ⊢
    have hf' : findFileList cs q = some c := by simpa [findFileEntry] using hf
    obtain ⟨hmem, hord⟩ := uploadList_put_order _ cs p hf' hs
    obtain ⟨t0, ht0⟩ := ensure_trace_head r p
    refine ⟨List.mem_append_right _ hmem, ?_⟩
    intro qs n hq
    cases qs with
    | nil =>
      rw [ht0]
      simp only [List.append_nil, List.cons_append]
      exact List.Sublist.cons₂ _ ((List.singleton_sublist.mpr hmem).trans
        (List.sublist_append_right t0 _))
    | cons a qs' =>
      exact (hord (a :: qs') n hq (by simp)).trans
        (List.sublist_append_right _ _)

/-- List-level version of `uploadEntry_put_order`. -/
theorem uploadList_put_order (r : Remote) (items : List (String × Entry))
    (p : RPath) {q : RPath} {c : List Nat}
    (hf : findFileList items q = some c)
    (hs : (uploadList r items p).2.2 = none) :
    SEvent.put (p ++ q) ∈ (uploadList r items p).2.1 ∧
    ∀ qs n, q = qs ++ [n] → qs ≠ [] →
      List.Sublist [SEvent.ensure (p ++ qs), SEvent.put (p ++ q)]
        (uploadList r items p).2.1 := by
  cases items with
  | nil => cases q <;> simp [findFileList] at hf
  | cons hd rest =>
    obtain ⟨m, e⟩ := hd
    cases q with
    | nil => simp [findFileList] at hf
    | cons x xs =>
      rcases h1 : uploadEntry r e (p ++ [m]) with ⟨r1, evs1, err1⟩
      cases err1 with
      | some er =>
        rw [uploadList_cons_err r r1 m e rest p evs1 er h1] at hs
        simp at hs
      | none =>
        rw [uploadList_cons_ok r r1 m e rest p evs1 h1] at hs ⊢
        simp only at hs ⊢
        by_cases hxm : x = m
        · subst hxm
          have hfe : findFileEntry e xs = some c := by
            simpa [findFileList] using hf
          obtain ⟨hmem, hord⟩ :=
            uploadEntry_put_order r e (p ++ [x]) hfe (by rw [h1])
          rw [h1] at hmem hord
          have hx : (p ++ [x]) ++ xs = p ++ x :: xs := by simp
          constructor
          · exact List.mem_append_left _ (by rw [← hx]; exact hmem)
          · intro qs n hq hqs
            cases qs with
            | nil => exact absurd rfl hqs
            | cons y qs' =>
              have hy : y = x := by
                have := congrArg (fun l => l.head?) hq
                simpa using this.symm
              have hxs : xs = qs' ++ [n] := by
                have := congrArg List.tail hq
                simpa using this
              have := hord qs' n hxs
              have hps : (p ++ [x]) ++ qs' = p ++ y :: qs' := by simp [hy]
              rw [hps, hx] at this
              exact this.trans (List.sublist_append_left _ _)
        · have hf' : findFileList rest (x :: xs) = some c := by
            simpa [findFileList, hxm] using hf
          obtain ⟨hmem, hord⟩ := uploadList_put_order r1 rest p hf' hs
          refine ⟨List.mem_append_right _ hmem, ?_⟩
          intro qs n hq hqs
          exact (hord qs n hq hqs).trans (List.sublist_append_right _ _)
end

theorem uploadEntry_dir_trace_head (r : Remote) (cs : List (String × Entry))
    (p : RPath) :
    ∃ t, (uploadEntry r (.dir cs) p).2.1 = SEvent.ensure p :: t := by
  rw [uploadEntry_dir]
  obtain ⟨t0, ht0⟩ := ensure_trace_head r p
  exact ⟨t0 ++ (uploadList (ensure_remote_directory r p).1 cs p).2.1,
    by rw [ht0]; simp⟩

mutual
/-- If the walk of a subtree at remote path `p` succeeds, then for every
subdirectory of the subtree at relative path `qs ++ [m]`, the trace ensures
the parent directory `p ++ qs` strictly before ensuring the subdirectory. -/
theorem uploadEntry_ensure_order (r : Remote) (e : Entry) (p : RPath)
    {q : RPath} {cs1 : List (String × Entry)}
    (hf : findDirEntry e q = some cs1)
    (hs : (uploadEntry r e p).2.2 = none) :
    (q ≠ [] → SEvent.ensure (p ++ q) ∈ (uploadEntry r e p).2.1) ∧
    ∀ qs m, q = qs ++ [m] →
      List.Sublist [SEvent.ensure (p ++ qs), SEvent.ensure (p ++ q)]
        (uploadEntry r e p).2.1 := by
  cases e with
  | file c0 => simp [findDirEntry] at hf
  | dir cs =>
    cases q with
    | nil =>
      refine ⟨fun h => absurd rfl h, ?_⟩
      intro qs m hq
      exact absurd (congrArg List.length hq) (by simp)
    | cons x xs =>
      rw [uploadEntry_dir] at hs ⊢
      simp only at hs ⊢
      have hf' : findDirList cs (x :: xs) = some cs1 := by
        simpa [findDirEntry] using hf
      obtain ⟨hmem, hord⟩ := uploadList_ensure_order _ cs p hf' hs
      obtain ⟨t0, ht0⟩ := ensure_trace_head r p
      refine ⟨fun _ => List.mem_append_right _ hmem, ?_⟩
      intro qs m hq
      cases qs with
      | nil =>
        rw [ht0]
        simp only [List.append_nil, List.cons_append]
        exact List.Sublist.cons₂ _ ((List.singleton_sublist.mpr hmem).trans
          (List.sublist_append_right t0 _))
      | cons a qs' =>
        exact (hord (a :: qs') m hq (by simp)).trans
          (List.sublist_append_right _ _)

/-- List-level version of `uploadEntry_ensure_order`. -/
theorem uploadList_ensure_order (r : Remote) (items : List (String × Entry))
    (p : RPath) {q : RPath} {cs1 : List (String × Entry)}
    (hf : findDirList items q = some cs1)
    (hs : (uploadList r items p).2.2 = none) :
    SEvent.ensure (p ++ q) ∈ (uploadList r items p).2.1 ∧
    ∀ qs m, q = qs ++ [m] → qs ≠ [] →
      List.Sublist [SEvent.ensure (p ++ qs), SEvent.ensure (p ++ q)]
        (uploadList r items p).2.1 := by
  cases items with
  | nil => cases q <;> simp [findDirList] at hf
  | cons hd rest =>
    obtain ⟨m0, e⟩ := hd
    cases q with
    | nil => simp [findDirList] at hf
    | cons x xs =>
      rcases h1 : uploadEntry r e (p ++ [m0]) with ⟨r1, evs1, err1⟩
      cases err1 with
      | some er =>
        rw [uploadList_cons_err r r1 m0 e rest p evs1 er h1] at hs
        simp at hs
      | none =>
        rw [uploadList_cons_ok r r1 m0 e rest p evs1 h1] at hs ⊢
        simp only at hs ⊢
        by_cases hxm : x = m0
        · subst hxm
          have hfe : findDirEntry e xs = some cs1 := by
            simpa [findDirList] using hf
          have hx : (p ++ [x]) ++ xs = p ++ x :: xs := by simp
          cases xs with
          | nil =>
            cases e with
            | file c0 => simp [findDirEntry] at hfe
            | dir cs2 =>
              obtain ⟨t, ht⟩ := uploadEntry_dir_trace_head r cs2 (p ++ [x])
              rw [h1] at ht
              simp only at ht
              constructor
              · refine List.mem_append_left _ ?_
                rw [ht]
                simp
              · intro qs m hq hqs
                cases qs with
                | nil => exact absurd rfl hqs
                | cons y qs' =>
                  exact absurd (congrArg List.length hq) (by simp)
          | cons y ys =>
            obtain ⟨hmem, hord⟩ :=
              uploadEntry_ensure_order r e (p ++ [x]) hfe (by rw [h1])
            rw [h1] at hmem hord
            constructor
            · refine List.mem_append_left _ ?_
              rw [← hx]
              exact hmem (by simp)
            · intro qs m hq hqs
              cases qs with
              | nil => exact absurd rfl hqs
              | cons z qs' =>
                have hz : z = x := by
                  have := congrArg (fun l => l.head?) hq
                  simpa using this.symm
                have hxs : y :: ys = qs' ++ [m] := by
                  have := congrArg List.tail hq
                  simpa using this
                have := hord qs' m hxs
                have hps : (p ++ [x]) ++ qs' = p ++ z :: qs' := by simp [hz]
                rw [hps, hx] at this
                exact this.trans (List.sublist_append_left _ _)
        · have hf' : findDirList rest (x :: xs) = some cs1 := by
            simpa [findDirList, hxm] using hf
          obtain ⟨hmem, hord⟩ := uploadList_ensure_order r1 rest p hf' hs
          refine ⟨List.mem_append_right _ hmem, ?_⟩
          intro qs m hq hqs
          exact (hord qs m hq hqs).trans (List.sublist_append_right _ _)
end

/-- C2: during a successful recursive mirror, a remote directory is always
ensured to exist before any of its children are created or uploaded: for
every file of the tree, the parent directory's
`_ensure_remote_directory` call precedes the file's `sftp.put` in the trace,
and for every subdirectory, the parent's `_ensure_remote_directory` call
precedes the subdirectory's. -/
theorem C2_parent_before_child (r : Remote) (tree : List (String × Entry))
    (root : RPath) (hs : (uploadEntry r (.dir tree) root).2.2 = none) :
    (∀ qs n c, findFileEntry (.dir tree) (qs ++ [n]) = some c →
      List.Sublist
        [SEvent.ensure (root ++ qs), SEvent.put (root ++ (qs ++ [n]))]
        (uploadEntry r (.dir tree) root).2.1)
    ∧ (∀ qs m cs1, findDirEntry (.dir tree) (qs ++ [m]) = some cs1 →
      List.Sublist
        [SEvent.ensure (root ++ qs), SEvent.ensure (root ++ (qs ++ [m]))]
        (uploadEntry r (.dir tree) root).2.1) := by
  constructor
  · intro qs n c hf
    exact (uploadEntry_put_order r (.dir tree) root hf hs).2 qs n rfl
  · intro qs m cs1 hf
    exact (uploadEntry_ensure_order r (.dir tree) root hf hs).2 qs m rfl

/-- Witness for C2 at the tree `A/B/file.txt` mirrored to remote root
`/repo` on an empty server: `/repo` is ensured before `/repo/A`, `/repo/A`
before `/repo/A/B`, and `/repo/A/B` before the upload of
`/repo/A/B/file.txt`. -/
theorem C2_parent_before_child_witness :
    ((uploadEntry Remote.empty
      (.dir [("A", Entry.dir [("B", Entry.dir [("file.txt", Entry.file [1, 2, 3])])])])
      ["repo"]).2.2 = none)
    ∧ List.Sublist [SEvent.ensure ["repo"], SEvent.ensure ["repo", "A"]]
      ((uploadEntry Remote.empty
        (.dir [("A", Entry.dir [("B", Entry.dir [("file.txt", Entry.file [1, 2, 3])])])])
        ["repo"]).2.1)
    ∧ List.Sublist [SEvent.ensure ["repo", "A"], SEvent.ensure ["repo", "A", "B"]]
      ((uploadEntry Remote.empty
        (.dir [("A", Entry.dir [("B", Entry.dir [("file.txt", Entry.file [1, 2, 3])])])])
        ["repo"]).2.1)
    ∧ List.Sublist [SEvent.ensure ["repo", "A", "B"],
        SEvent.put ["repo", "A", "B", "file.txt"]]
      ((uploadEntry Remote.empty
        (.dir [("A", Entry.dir [("B", Entry.dir [("file.txt", Entry.file [1, 2, 3])])])])
        ["repo"]).2.1) :=
  ⟨by decide,
   (C2_parent_before_child Remote.empty
      [("A", Entry.dir [("B", Entry.dir [("file.txt", Entry.file [1, 2, 3])])])]
      ["repo"] (by decide)).2 [] "A"
      [("B", Entry.dir [("file.txt", Entry.file [1, 2, 3])])] rfl,
   (C2_parent_before_child Remote.empty
      [("A", Entry.dir [("B", Entry.dir [("file.txt", Entry.file [1, 2, 3])])])]
      ["repo"] (by decide)).2 ["A"] "B"
      [("file.txt", Entry.file [1, 2, 3])] rfl,
   (C2_parent_before_child Remote.empty
      [("A", Entry.dir [("B", Entry.dir [("file.txt", Entry.file [1, 2, 3])])])]
      ["repo"] (by decide)).1 ["A", "B"] "file.txt" [1, 2, 3] (by decide)⟩

/-! ## No rollback and abort-on-failure (C8) -/

theorem find_isSome_append (fs l : List (RPath × List Nat)) (x : RPath)
    (h : (l.find? (fun y => y.1 = x)).isSome) :
    ((fs ++ l).find? (fun y => y.1 = x)).isSome := by
  induction fs with
  | nil => rw [List.nil_append]; exact h
  | cons f fs' ih =>
    by_cases hf : (f.1 = x)
    · simp [List.find?, hf]
    · simpa [List.find?, hf] using ih

theorem lookupFile_mono {r r' : Remote} (fs : List (RPath × List Nat))
    (h : r'.files = fs ++ r.files) (x : RPath)
    (hx : (lookupFile r x).isSome) : (lookupFile r' x).isSome := by
  unfold lookupFile at hx ⊢
  rw [h]
  cases hfind : r.files.find? (fun y => y.1 = x) with
  | none => rw [hfind] at hx; simp at hx
  | some v =>
    have hap : ((fs ++ r.files).find? (fun y => y.1 = x)).isSome :=
      find_isSome_append fs r.files x (by rw [hfind]; rfl)
    obtain ⟨w, hw⟩ := Option.isSome_iff_exists.mp hap
    rw [hw]
    rfl

mutual
/-- After a successful walk, every file whose `sftp.put` appears in the trace
is present on the remote server. -/
theorem uploadEntry_puts_present (r : Remote) (e : Entry) (p : RPath)
    (hs : (uploadEntry r e p).2.2 = none) (x : RPath)
    (hx : SEvent.put x ∈ (uploadEntry r e p).2.1) :
    (lookupFile (uploadEntry r e p).1 x).isSome := by
  cases e with
  | file c =>
    rw [uploadEntry_file] at hs hx ⊢
    by_cases hc : canPut r p
    · simp only [hc, if_true] at hx ⊢
      simp at hx
      rw [hx, lookupFile_putOp_self]
      rfl
    · simp [hc] at hs
  | dir cs =>
    rw [uploadEntry_dir] at hs hx ⊢
    simp only at hs hx ⊢
    rcases List.mem_append.mp hx with hx1 | hx2
    · exact absurd hx1 (ensure_noPut r p x)
    · exact uploadList_puts_present _ cs p hs x hx2

/-- List-level version of `uploadEntry_puts_present`. -/
theorem uploadList_puts_present (r : Remote) (items : List (String × Entry))
    (p : RPath) (hs : (uploadList r items p).2.2 = none) (x : RPath)
    (hx : SEvent.put x ∈ (uploadList r items p).2.1) :
    (lookupFile (uploadList r items p).1 x).isSome := by
  cases items with
  | nil => rw [uploadList_nil] at hx; simp at hx
  | cons hd rest =>
    obtain ⟨name, e⟩ := hd
    rcases h1 : uploadEntry r e (p ++ [name]) with ⟨r1, evs1, err1⟩
    cases err1 with
    | some er =>
      rw [uploadList_cons_err r r1 name e rest p evs1 er h1] at hs
      simp at hs
    | none =>
      rw [uploadList_cons_ok r r1 name e rest p evs1 h1] at hs hx ⊢
      simp only at hs hx ⊢
      rcases List.mem_append.mp hx with hx1 | hx2
      · have hp1 : (lookupFile r1 x).isSome := by
          have := uploadEntry_puts_present r e (p ++ [name]) (by rw [h1]) x
            (by rw [h1]; exact hx1)
          rwa [h1] at this
        obtain ⟨fs, hfs⟩ := uploadList_files_grow r1 rest p
        exact lookupFile_mono fs hfs x hp1
      · exact uploadList_puts_present r1 rest p hs x hx2
end

mutual
/-- If the walk aborts with a failed `sftp.put` of `b`, the trace ends at
exactly that `put` (the remaining walk is skipped), and every file whose
`put` happened before it is still present in the final remote state (no
rollback). -/
theorem uploadEntry_err_trace (r : Remote) (e : Entry) (p : RPath)
    {b : RPath} (he : (uploadEntry r e p).2.2 = some (UErr.putFailed b)) :
    ∃ t', (uploadEntry r e p).2.1 = t' ++ [SEvent.put b] ∧
      ∀ x, SEvent.put x ∈ t' → (lookupFile (uploadEntry r e p).1 x).isSome := by
  cases e with
  | file c =>
    rw [uploadEntry_file] at he ⊢
    by_cases hc : canPut r p
    · simp [hc] at he
    · simp only [hc, if_false] at he ⊢
      simp at he
      exact ⟨[], by simp [he], by simp⟩
  | dir cs =>
    rw [uploadEntry_dir] at he ⊢
    simp only at he ⊢
    obtain ⟨t', ht', hpr⟩ := uploadList_err_trace _ cs p he
    refine ⟨(ensure_remote_directory r p).2 ++ t', ?_, ?_⟩
    · rw [ht', List.append_assoc]
    · intro x hx
      rcases List.mem_append.mp hx with hx1 | hx2
      · exact absurd hx1 (ensure_noPut r p x)
      · exact hpr x hx2

/-- List-level version of `uploadEntry_err_trace`. -/
theorem uploadList_err_trace (r : Remote) (items : List (String × Entry))
    (p : RPath) {b : RPath}
    (he : (uploadList r items p).2.2 = some (UErr.putFailed b)) :
    ∃ t', (uploadList r items p).2.1 = t' ++ [SEvent.put b] ∧
      ∀ x, SEvent.put x ∈ t' → (lookupFile (uploadList r items p).1 x).isSome := by
  cases items with
  | nil => rw [uploadList_nil] at he; simp at he
  | cons hd rest =>
    obtain ⟨name, e⟩ := hd
    rcases h1 : uploadEntry r e (p ++ [name]) with ⟨r1, evs1, err1⟩
    cases err1 with
    | some er =>
      rw [uploadList_cons_err r r1 name e rest p evs1 er h1] at he ⊢
      simp only at he ⊢
      have her : er = UErr.putFailed b := by simpa using he
      subst her
      obtain ⟨t', ht', hpr⟩ := uploadEntry_err_trace r e (p ++ [name])
        (by rw [h1])
      rw [h1] at ht' hpr
      exact ⟨t', ht', hpr⟩
    | none =>
      rw [uploadList_cons_ok r r1 name e rest p evs1 h1] at he ⊢
      simp only at he ⊢
      obtain ⟨t', ht', hpr⟩ := uploadList_err_trace r1 rest p he
      refine ⟨evs1 ++ t', ?_, ?_⟩
      · rw [ht', List.append_assoc]
      · intro x hx
        rcases List.mem_append.mp hx with hx1 | hx2
        · have hp1 : (lookupFile r1 x).isSome := by
            have := uploadEntry_puts_present r e (p ++ [name]) (by rw [h1]) x
              (by rw [h1]; exact hx1)
            rwa [h1] at this
          obtain ⟨fs, hfs⟩ := uploadList_files_grow r1 rest p
          exact lookupFile_mono fs hfs x hp1
        · exact hpr x hx2
end

/-- C8: if a file transfer fails partway through the recursive mirror, the
error propagates and aborts the remaining tree walk (the trace ends at the
failing `sftp.put`; no per-file isolation), no rollback is performed (every
file successfully uploaded before the failure is still present in the final
remote state), and `upload_repo` exits the process with code 1. -/
theorem C8_partial_failure (cfg : Config) (scriptDir : String)
    (tree : List (String × Entry)) (net : NetEnv) (r0 : Remote)
    {host user pw rp0 : String} {b : RPath}
    (hh : truthyS cfg.sftp_host = some host)
    (hu : truthyS cfg.sftp_user = some user)
    (hp : truthyS cfg.sftp_password = some pw)
    (hr : truthyS cfg.repo_path = some rp0)
    (ht : net.transportOk = true) (hst : net.startOk = true)
    (ha : net.authOk = true) (hsf : net.sftpOk = true)
    (he : (uploadEntry r0 (.dir tree) []).2.2 = some (UErr.putFailed b)) :
    (upload_repo true cfg scriptDir (some tree) net r0).1 = Outcome.exited 1
    ∧ (upload_repo true cfg scriptDir (some tree) net r0).2.2 =
        (uploadEntry r0 (.dir tree) []).1
    ∧ ∃ t', (uploadEntry r0 (.dir tree) []).2.1 = t' ++ [SEvent.put b]
        ∧ ∀ x, SEvent.put x ∈ t' →
            (lookupFile (uploadEntry r0 (.dir tree) []).1 x).isSome := by
  rcases hup : uploadEntry r0 (.dir tree) [] with ⟨r', evs, err⟩
  rw [hup] at he
  simp only at he
  subst he
  refine ⟨?_, ?_, ?_⟩
  · simp [upload_repo, hh, hu, hp, hr, ht, hst, ha, hsf, hup]
  · simp [upload_repo, hh, hu, hp, hr, ht, hst, ha, hsf, hup]
  · obtain ⟨t', ht', hpr⟩ := uploadEntry_err_trace r0 (.dir tree) []
      (by rw [hup])
    rw [hup] at ht' hpr
    exact ⟨t', ht', hpr⟩

/-- Witness for C8: a remote server with a plain file at `/sub` makes the
transfer of `sub/g` fail after `f1` was already uploaded. -/
theorem C8_partial_failure_witness :
    ((uploadEntry ⟨[], [(["sub"], [0])]⟩
        (.dir [("f1", Entry.file [1]), ("sub", Entry.dir [("g", Entry.file [2])])])
        []).2.2 = some (UErr.putFailed ["sub", "g"]))
    ∧ ((upload_repo true
          ⟨some "/repo", [], [], some "h", some 22, some "u", some "pw"⟩ "/sd"
          (some [("f1", Entry.file [1]), ("sub", Entry.dir [("g", Entry.file [2])])])
          ⟨true, true, true, true, true, true⟩ ⟨[], [(["sub"], [0])]⟩).1 =
        Outcome.exited 1
      ∧ (upload_repo true
          ⟨some "/repo", [], [], some "h", some 22, some "u", some "pw"⟩ "/sd"
          (some [("f1", Entry.file [1]), ("sub", Entry.dir [("g", Entry.file [2])])])
          ⟨true, true, true, true, true, true⟩ ⟨[], [(["sub"], [0])]⟩).2.2 =
        (uploadEntry ⟨[], [(["sub"], [0])]⟩
          (.dir [("f1", Entry.file [1]), ("sub", Entry.dir [("g", Entry.file [2])])])
          []).1
      ∧ ∃ t', (uploadEntry ⟨[], [(["sub"], [0])]⟩
            (.dir [("f1", Entry.file [1]), ("sub", Entry.dir [("g", Entry.file [2])])])
            []).2.1 = t' ++ [SEvent.put ["sub", "g"]]
          ∧ ∀ x, SEvent.put x ∈ t' →
              (lookupFile (uploadEntry ⟨[], [(["sub"], [0])]⟩
                (.dir [("f1", Entry.file [1]), ("sub", Entry.dir [("g", Entry.file [2])])])
                []).1 x).isSome) :=
  ⟨by decide,
   @C8_partial_failure
     ⟨some "/repo", [], [], some "h", some 22, some "u", some "pw"⟩ "/sd"
     [("f1", Entry.file [1]), ("sub", Entry.dir [("g", Entry.file [2])])]
     ⟨true, true, true, true, true, true⟩ ⟨[], [(["sub"], [0])]⟩
     "h" "u" "pw" "/repo" ["sub", "g"]
     (by decide) (by decide) (by decide) (by decide)
     (by decide) (by decide) (by decide) (by decide) (by decide)⟩

/-- C9: on every execution path of `upload_repo` — success, authentication
failure, connection failure, or an exception during the tree walk — the
`finally` block closes whichever of the SFTP channel and the transport was
opened before the operation returns or the process exits, and errors raised
by the `close()` calls themselves are swallowed (the outcome and trace do
not depend on the two close-failure flags). -/
theorem C9_teardown (pa : Bool) (cfg : Config) (sd : String)
    (lt : Option (List (String × Entry))) (net : NetEnv) (r0 : Remote) :
    ((∃ h p, RAction.openTransport h p ∈ (upload_repo pa cfg sd lt net r0).2.1) →
      RAction.closeTransport ∈ (upload_repo pa cfg sd lt net r0).2.1)
    ∧ (RAction.openSftp ∈ (upload_repo pa cfg sd lt net r0).2.1 →
      RAction.closeSftp ∈ (upload_repo pa cfg sd lt net r0).2.1)
    ∧ upload_repo pa cfg sd lt net r0 =
        upload_repo pa cfg sd lt
          ⟨net.transportOk, net.startOk, net.authOk, net.sftpOk, true, true⟩ r0 := by
  obtain ⟨t, s, a, f, cs, ct⟩ := net
  refine ⟨?_, ?_, rfl⟩ <;>
  · cases pa with
    | false => simp [upload_repo]
    | true =>
      rcases hh : truthyS cfg.sftp_host with _ | host
      · simp [upload_repo, hh]
      rcases hu : truthyS cfg.sftp_user with _ | user
      · simp [upload_repo, hh, hu]
      rcases hp : truthyS cfg.sftp_password with _ | pw
      · simp [upload_repo, hh, hu, hp]
      rcases hr : truthyS cfg.repo_path with _ | rp0
      · simp [upload_repo, hh, hu, hp, hr]
      cases lt with
      | none => simp [upload_repo, hh, hu, hp, hr]
      | some tree =>
        cases t with
        | false => simp [upload_repo, hh, hu, hp, hr]
        | true =>
          cases s with
          | false => simp [upload_repo, hh, hu, hp, hr]
          | true =>
            cases a with
            | false => simp [upload_repo, hh, hu, hp, hr]
            | true =>
              cases f with
              | false => simp [upload_repo, hh, hu, hp, hr]
              | true =>
                rcases hup : uploadEntry r0 (.dir tree) [] with ⟨r', evs, err⟩
                cases err <;> simp [upload_repo, hh, hu, hp, hr, hup]

/-- Witness for C9 on an authentication-failure path whose `close()` calls
themselves fail. -/
theorem C9_teardown_witness :
    ((∃ h p, RAction.openTransport h p ∈
        (upload_repo true ⟨some "/repo", [], [], some "h", some 22, some "u", some "pw"⟩
          "/sd" (some []) ⟨true, true, false, true, false, false⟩ Remote.empty).2.1) →
      RAction.closeTransport ∈
        (upload_repo true ⟨some "/repo", [], [], some "h", some 22, some "u", some "pw"⟩
          "/sd" (some []) ⟨true, true, false, true, false, false⟩ Remote.empty).2.1)
    ∧ (RAction.openSftp ∈
        (upload_repo true ⟨some "/repo", [], [], some "h", some 22, some "u", some "pw"⟩
          "/sd" (some []) ⟨true, true, false, true, false, false⟩ Remote.empty).2.1 →
      RAction.closeSftp ∈
        (upload_repo true ⟨some "/repo", [], [], some "h", some 22, some "u", some "pw"⟩
          "/sd" (some []) ⟨true, true, false, true, false, false⟩ Remote.empty).2.1)
    ∧ upload_repo true ⟨some "/repo", [], [], some "h", some 22, some "u", some "pw"⟩
        "/sd" (some []) ⟨true, true, false, true, false, false⟩ Remote.empty =
      upload_repo true ⟨some "/repo", [], [], some "h", some 22, some "u", some "pw"⟩
        "/sd" (some []) ⟨true, true, false, true, true, true⟩ Remote.empty :=
  C9_teardown true ⟨some "/repo", [], [], some "h", some 22, some "u", some "pw"⟩
    "/sd" (some []) ⟨true, true, false, true, false, false⟩ Remote.empty

/-- C4 (amended): if `sftp_host`, `sftp_user` or `sftp_password` is absent or
empty, or `repo_path` is unset or resolves to a nonexistent local path, then
`upload_repo` terminates the process with exit code 1 before any network
connection is opened.  (`sftp_port` is NOT part of this check: an absent
port silently defaults to 22, see `C4_port_not_checked_counterexample`.) -/
theorem C4_precondition_exit (pa : Bool) (cfg : Config) (sd : String)
    (lt : Option (List (String × Entry))) (net : NetEnv) (r0 : Remote)
    (h : truthyS cfg.sftp_host = none ∨ truthyS cfg.sftp_user = none ∨
         truthyS cfg.sftp_password = none ∨ truthyS cfg.repo_path = none ∨
         lt = none) :
    (upload_repo pa cfg sd lt net r0).1 = Outcome.exited 1
    ∧ ∀ h0 p0, RAction.openTransport h0 p0 ∉
        (upload_repo pa cfg sd lt net r0).2.1 := by
  cases pa with
  | false => exact ⟨by simp [upload_repo], by intro h0 p0; simp [upload_repo]⟩
  | true =>
    rcases hh : truthyS cfg.sftp_host with _ | host
    · exact ⟨by simp [upload_repo, hh],
        by intro h0 p0; simp [upload_repo, hh]⟩
    rcases hu : truthyS cfg.sftp_user with _ | user
    · exact ⟨by simp [upload_repo, hh, hu],
        by intro h0 p0; simp [upload_repo, hh, hu]⟩
    rcases hp : truthyS cfg.sftp_password with _ | pw
    · exact ⟨by simp [upload_repo, hh, hu, hp],
        by intro h0 p0; simp [upload_repo, hh, hu, hp]⟩
    rcases hr : truthyS cfg.repo_path with _ | rp0
    · exact ⟨by simp [upload_repo, hh, hu, hp, hr],
        by intro h0 p0; simp [upload_repo, hh, hu, hp, hr]⟩
    cases lt with
    | none =>
      exact ⟨by simp [upload_repo, hh, hu, hp, hr],
        by intro h0 p0; simp [upload_repo, hh, hu, hp, hr]⟩
    | some tree =>
      rw [hh, hu, hp, hr] at h
      simp at h

/-- Witness for the amended C4: a config with an empty `sftp_password`
exits with code 1 and never opens a transport. -/
theorem C4_precondition_exit_witness :
    (truthyS (Config.mk (some "/repo") [] [] (some "h") (some 22) (some "u")
        (some "")).sftp_password = none)
    ∧ (upload_repo true
        ⟨some "/repo", [], [], some "h", some 22, some "u", some ""⟩ "/sd"
        (some []) ⟨true, true, true, true, true, true⟩ Remote.empty).1 =
      Outcome.exited 1
    ∧ ∀ h0 p0, RAction.openTransport h0 p0 ∉
        (upload_repo true
          ⟨some "/repo", [], [], some "h", some 22, some "u", some ""⟩ "/sd"
          (some []) ⟨true, true, true, true, true, true⟩ Remote.empty).2.1 :=
  ⟨by decide,
   (C4_precondition_exit true
      ⟨some "/repo", [], [], some "h", some 22, some "u", some ""⟩ "/sd"
      (some []) ⟨true, true, true, true, true, true⟩ Remote.empty
      (Or.inr (Or.inr (Or.inl (by decide))))).1,
   (C4_precondition_exit true
      ⟨some "/repo", [], [], some "h", some 22, some "u", some ""⟩ "/sd"
      (some []) ⟨true, true, true, true, true, true⟩ Remote.empty
      (Or.inr (Or.inr (Or.inl (by decide))))).2⟩

/-- Counterexample to C4 as stated: with `sftp_port` absent (and everything
else present and healthy), `upload_repo` does not exit — it defaults the
port to 22, opens the connection, and finishes — so "any of the four
connection settings absent implies exit before connecting" is false for the
port. -/
theorem C4_port_not_checked_counterexample :
    (Config.mk (some "/repo") [] [] (some "h") none (some "u")
        (some "pw")).sftp_port = none
    ∧ (upload_repo true
        ⟨some "/repo", [], [], some "h", none, some "u", some "pw"⟩ "/sd"
        (some []) ⟨true, true, true, true, true, true⟩ Remote.empty).1 =
      Outcome.finished
    ∧ RAction.openTransport "h" 22 ∈
        (upload_repo true
          ⟨some "/repo", [], [], some "h", none, some "u", some "pw"⟩ "/sd"
          (some []) ⟨true, true, true, true, true, true⟩ Remote.empty).2.1 :=
  ⟨rfl, by decide, by decide⟩

/-! ## Orchestration lemmas (C5, C6, C7, C10) -/

theorem attemptedRecipes_append (a b : List TAction) :
    attemptedRecipes (a ++ b) = attemptedRecipes a ++ attemptedRecipes b := by
  simp [attemptedRecipes, List.filterMap_append]

theorem attemptedRecipes_eq_nil {t : List TAction}
    (h : ∀ nm, TAction.runRecipe nm ∉ t) : attemptedRecipes t = [] := by
  induction t with
  | nil => rfl
  | cons a rest ih =>
    have hrest : ∀ nm, TAction.runRecipe nm ∉ rest := by
      intro nm hm
      exact h nm (List.mem_cons_of_mem a hm)
    cases a with
    | runRecipe nm => exact absurd (List.mem_cons_self _ _) (h nm)
    | _ =>
      simp only [attemptedRecipes, List.filterMap_cons]
      exact ih hrest


/-- Every recipe outcome — success, nonzero exit, or a raised exception such
as `FileNotFoundError` — continues with the next recipe, so the recipes
attempted are exactly the non-falsy configured ones, for every oracle. -/
theorem run_recipes_attempted (env : CmdEnv) (rs : List String) :
    attemptedRecipes (run_recipes env rs) = rs.filter (fun r => r != "") := by
  induction rs with
  | nil => rfl
  | cons r rest ih =>
    by_cases hr : r = ""
    · simp [run_recipes, hr, List.filter, ih]
    · have hb : (r != "") = true := by simp [hr]
      cases henv : env ["autopkg", "run", "-v", r] <;>
        simp [run_recipes, hr, henv, attemptedRecipes, List.filterMap_cons,
          List.filter_cons, hb] <;>
        simpa [attemptedRecipes] using ih

theorem configure_munki_repo_none (env : CmdEnv) (rp : Option String)
    (sd : String) (le : String → Bool) (h : truthyS rp = none) :
    configure_munki_repo env rp sd le = ([TAction.warnNoRepoPath], .ok ()) := by
  unfold configure_munki_repo
  rw [h]

theorem configure_munki_repo_missing (env : CmdEnv) (rp : Option String)
    (sd : String) (le : String → Bool) (p : String) (h : truthyS rp = some p)
    (hx : le (resolvePath sd p) = false) :
    configure_munki_repo env rp sd le = ([TAction.warnRepoPathMissing], .ok ()) := by
  unfold configure_munki_repo
  rw [h]
  dsimp only
  rw [hx]
  simp

theorem configure_munki_repo_write (env : CmdEnv) (rp : Option String)
    (sd : String) (le : String → Bool) (p : String) (h : truthyS rp = some p)
    (hx : le (resolvePath sd p) = true) :
    configure_munki_repo env rp sd le =
      ([TAction.cmd ["defaults", "write", "com.github.autopkg", "MUNKI_REPO",
          resolvePath sd p]],
        match (run_command env ["defaults", "write", "com.github.autopkg",
            "MUNKI_REPO", resolvePath sd p] true).2 with
        | .ok _ => Except.ok ()
        | .error e => Except.error e) := by
  unfold configure_munki_repo
  rw [h]
  dsimp only
  rw [hx]
  simp [run_command]
  cases env ["defaults", "write", "com.github.autopkg", "MUNKI_REPO",
    resolvePath sd p] <;> rfl

theorem configure_munki_repo_no_recipe (env : CmdEnv) (rp : Option String)
    (sd : String) (le : String → Bool) (nm : String) :
    TAction.runRecipe nm ∉ (configure_munki_repo env rp sd le).1 := by
  rcases hrp : truthyS rp with _ | p
  · rw [configure_munki_repo_none env rp sd le hrp]
    simp
  · by_cases hx : le (resolvePath sd p) = true
    · rw [configure_munki_repo_write env rp sd le p hrp hx]
      simp
    · rw [configure_munki_repo_missing env rp sd le p hrp
        (Bool.not_eq_true _ ▸ hx)]
      simp

theorem configure_trust_info_ok (env : CmdEnv) (o : String)
    (h : env ["defaults", "write", "com.github.autopkg",
      "FAIL_RECIPES_WITHOUT_TRUST_INFO", "-bool", "false"] = .ok o) :
    configure_trust_info env =
      ([TAction.cmd ["defaults", "write", "com.github.autopkg",
        "FAIL_RECIPES_WITHOUT_TRUST_INFO", "-bool", "false"],
        TAction.setTrustEnv], .ok ()) := by
  unfold configure_trust_info
  simp [run_command, h]

theorem configure_trust_info_fail (env : CmdEnv) (c : Nat) (o e : String)
    (h : env ["defaults", "write", "com.github.autopkg",
      "FAIL_RECIPES_WITHOUT_TRUST_INFO", "-bool", "false"] = .fail c o e) :
    configure_trust_info env =
      ([TAction.cmd ["defaults", "write", "com.github.autopkg",
        "FAIL_RECIPES_WITHOUT_TRUST_INFO", "-bool", "false"]], .ok ()) := by
  unfold configure_trust_info
  simp [run_command, h]

theorem configure_trust_info_notFound (env : CmdEnv)
    (h : env ["defaults", "write", "com.github.autopkg",
      "FAIL_RECIPES_WITHOUT_TRUST_INFO", "-bool", "false"] = .notFound) :
    configure_trust_info env =
      ([TAction.cmd ["defaults", "write", "com.github.autopkg",
        "FAIL_RECIPES_WITHOUT_TRUST_INFO", "-bool", "false"]],
        .error (.sysExit 1)) := by
  unfold configure_trust_info
  simp [run_command, h]

theorem configure_trust_info_no_recipe (env : CmdEnv) (nm : String) :
    TAction.runRecipe nm ∉ (configure_trust_info env).1 := by
  cases h : env ["defaults", "write", "com.github.autopkg",
      "FAIL_RECIPES_WITHOUT_TRUST_INFO", "-bool", "false"] with
  | ok o => rw [configure_trust_info_ok env o h]; simp
  | fail c o e => rw [configure_trust_info_fail env c o e h]; simp
  | notFound => rw [configure_trust_info_notFound env h]; simp

theorem addRepoStep_head (env : CmdEnv) (name url : String) :
    ∃ t', (addRepoStep env name url).1 =
      TAction.cmd ["autopkg", "repo-add", name] :: t' := by
  unfold addRepoStep
  cases h1 : env ["autopkg", "repo-add", name] with
  | ok o => exact ⟨[], by simp [run_command, h1]⟩
  | notFound => exact ⟨[], by simp [run_command, h1]⟩
  | fail c o e =>
    by_cases hc : (c != 0) = true
    · cases h2 : env ["autopkg", "repo-list"] with
      | ok o2 =>
        refine ⟨[TAction.cmd ["autopkg", "repo-list"],
          if subStr name o2 || subStr url o2 then TAction.repoAlready name
          else TAction.warnRepoFailed name], ?_⟩
        simp [run_command, h1, h2, hc]
      | fail c2 o2 e2 =>
        exact ⟨[TAction.cmd ["autopkg", "repo-list"]],
          by simp [run_command, h1, h2, hc]⟩
      | notFound =>
        exact ⟨[TAction.cmd ["autopkg", "repo-list"]],
          by simp [run_command, h1, h2, hc]⟩
    · exact ⟨[], by simp [run_command, h1, hc]⟩

theorem addRepoStep_no_recipe (env : CmdEnv) (name url nm : String) :
    TAction.runRecipe nm ∉ (addRepoStep env name url).1 := by
  unfold addRepoStep
  cases h1 : env ["autopkg", "repo-add", name] with
  | ok o => simp [run_command, h1]
  | notFound => simp [run_command, h1]
  | fail c o e =>
    by_cases hc : (c != 0) = true
    · cases h2 : env ["autopkg", "repo-list"] with
      | ok o2 =>
        by_cases hsub : (subStr name o2 || subStr url o2) = true <;>
          simp [run_command, h1, h2, hc, hsub]
      | fail c2 o2 e2 => simp [run_command, h1, h2, hc]
      | notFound => simp [run_command, h1, h2, hc]
    · simp [run_command, h1, hc]

theorem addRepoStep_none (env : CmdEnv) (name url : String)
    (h1 : env ["autopkg", "repo-add", name] ≠ .notFound)
    (h2 : env ["autopkg", "repo-list"] ≠ .notFound) :
    (addRepoStep env name url).2 = none := by
  unfold addRepoStep
  cases ha : env ["autopkg", "repo-add", name] with
  | ok o => simp [run_command, ha]
  | notFound => exact absurd ha h1
  | fail c o e =>
    by_cases hc : (c != 0) = true
    · cases hb : env ["autopkg", "repo-list"] with
      | ok o2 => simp [run_command, ha, hb, hc]
      | fail c2 o2 e2 => simp [run_command, ha, hb, hc]
      | notFound => exact absurd hb h2
    · simp [run_command, ha, hc]

theorem add_repositories_cons_ok (env : CmdEnv) (repo : RepoEntry)
    (rest : List RepoEntry) (name url : String) (t : List TAction)
    (hn : truthyS repo.name = some name) (hu : truthyS repo.url = some url)
    (hstep : addRepoStep env name url = (t, none)) :
    add_repositories env (repo :: rest) =
      (t ++ (add_repositories env rest).1, (add_repositories env rest).2) := by
  conv_lhs => unfold add_repositories
  rw [hn, hu]
  dsimp only
  rw [hstep]

theorem add_repositories_cons_err (env : CmdEnv) (repo : RepoEntry)
    (rest : List RepoEntry) (name url : String) (t : List TAction) (e : PyErr)
    (hn : truthyS repo.name = some name) (hu : truthyS repo.url = some url)
    (hstep : addRepoStep env name url = (t, some e)) :
    add_repositories env (repo :: rest) = (t, .error e) := by
  conv_lhs => unfold add_repositories
  rw [hn, hu]
  dsimp only
  rw [hstep]

theorem add_repositories_cons_skip (env : CmdEnv) (repo : RepoEntry)
    (rest : List RepoEntry)
    (h : truthyS repo.name = none ∨ truthyS repo.url = none) :
    add_repositories env (repo :: rest) =
      (TAction.warnSkipRepo :: (add_repositories env rest).1,
        (add_repositories env rest).2) := by
  conv_lhs => unfold add_repositories
  rcases h with h | h
  · rw [h]
  · cases hn : truthyS repo.name <;> rw [h]

theorem add_repositories_no_recipe (env : CmdEnv) (repos : List RepoEntry)
    (nm : String) : TAction.runRecipe nm ∉ (add_repositories env repos).1 := by
  induction repos with
  | nil => simp [add_repositories]
  | cons repo rest ih =>
    rcases hn : truthyS repo.name with _ | name
    · rw [add_repositories_cons_skip env repo rest (Or.inl hn)]
      simp [ih]
    · rcases hu : truthyS repo.url with _ | url
      · rw [add_repositories_cons_skip env repo rest (Or.inr hu)]
        simp [ih]
      · rcases hstep : addRepoStep env name url with ⟨t, stop⟩
        have hnr : TAction.runRecipe nm ∉ t := by
          have := addRepoStep_no_recipe env name url nm
          rwa [hstep] at this
        cases stop with
        | some e =>
          rw [add_repositories_cons_err env repo rest name url t e hn hu hstep]
          exact hnr
        | none =>
          rw [add_repositories_cons_ok env repo rest name url t hn hu hstep]
          simp only [List.mem_append]
          intro hmem
          rcases hmem with hmem | hmem
          · exact hnr hmem
          · exact ih hmem

theorem runAll_ok (env : CmdEnv) (cfg : Config) (sd : String)
    (le : String → Bool) (t1 t2 t3 : List TAction)
    (h1 : configure_munki_repo env cfg.repo_path sd le = (t1, .ok ()))
    (h2 : configure_trust_info env = (t2, .ok ()))
    (h3 : add_repositories env cfg.repos = (t3, .ok ())) :
    runAll env cfg sd le =
      (t1 ++ t2 ++ t3 ++ run_recipes env cfg.recipes, 0) := by
  unfold runAll
  rw [h1]
  dsimp only
  rw [h2]
  dsimp only
  rw [h3]

theorem runAll_munki_exc (env : CmdEnv) (cfg : Config) (sd : String)
    (le : String → Bool) (t1 : List TAction) (m : String)
    (h1 : configure_munki_repo env cfg.repo_path sd le =
      (t1, .error (.exc m))) :
    runAll env cfg sd le = (t1, 1) := by
  unfold runAll
  rw [h1]

/-- C5: for every configured recipe list, a failure of one recipe invocation
— whether a nonzero exit code or a raised exception such as the tool not
being found — does not prevent any subsequent recipe from being attempted
(the attempted recipes are exactly the non-empty configured ones, for every
command oracle), and the default-mode run exits with code 0 when the
orchestration sequence completes without an uncaught exception. -/
theorem C5_recipe_isolation (env : CmdEnv) (cfg : Config) (sd : String)
    (le : String → Bool)
    (h1 : (configure_munki_repo env cfg.repo_path sd le).2 = .ok ())
    (h2 : (configure_trust_info env).2 = .ok ())
    (h3 : (add_repositories env cfg.repos).2 = .ok ()) :
    (runAll env cfg sd le).2 = 0
    ∧ attemptedRecipes (runAll env cfg sd le).1 =
        cfg.recipes.filter (fun r => r != "") := by
  rcases e1 : configure_munki_repo env cfg.repo_path sd le with ⟨t1, r1⟩
  rw [e1] at h1
  simp only at h1
  subst h1
  rcases e2 : configure_trust_info env with ⟨t2, r2⟩
  rw [e2] at h2
  simp only at h2
  subst h2
  rcases e3 : add_repositories env cfg.repos with ⟨t3, r3⟩
  rw [e3] at h3
  simp only at h3
  subst h3
  rw [runAll_ok env cfg sd le t1 t2 t3 e1 e2 e3]
  refine ⟨rfl, ?_⟩
  have n1 : attemptedRecipes t1 = [] :=
    attemptedRecipes_eq_nil (fun nm hm =>
      configure_munki_repo_no_recipe env cfg.repo_path sd le nm
        (by rw [e1]; exact hm))
  have n2 : attemptedRecipes t2 = [] :=
    attemptedRecipes_eq_nil (fun nm hm =>
      configure_trust_info_no_recipe env nm (by rw [e2]; exact hm))
  have n3 : attemptedRecipes t3 = [] :=
    attemptedRecipes_eq_nil (fun nm hm =>
      add_repositories_no_recipe env cfg.repos nm (by rw [e3]; exact hm))
  simp only [attemptedRecipes_append, n1, n2, n3, List.nil_append,
    List.append_nil]
  exact run_recipes_attempted env cfg.recipes

/-- Witness for C5: three recipes where the first exits nonzero and the
second raises `FileNotFoundError`; all three are attempted and the run
exits 0. -/
theorem C5_recipe_isolation_witness :
    ((configure_munki_repo
        (fun args => if args = ["autopkg", "run", "-v", "r1"] then
            CmdOutcome.fail 1 "" ""
          else if args = ["autopkg", "run", "-v", "r2"] then CmdOutcome.notFound
          else CmdOutcome.ok "")
        (Config.mk none [] ["r1", "r2", "r3"] none none none none).repo_path
        "/sd" (fun _ => false)).2 = .ok ())
    ∧ ((runAll
        (fun args => if args = ["autopkg", "run", "-v", "r1"] then
            CmdOutcome.fail 1 "" ""
          else if args = ["autopkg", "run", "-v", "r2"] then CmdOutcome.notFound
          else CmdOutcome.ok "")
        ⟨none, [], ["r1", "r2", "r3"], none, none, none, none⟩ "/sd"
        (fun _ => false)).2 = 0
      ∧ attemptedRecipes (runAll
          (fun args => if args = ["autopkg", "run", "-v", "r1"] then
              CmdOutcome.fail 1 "" ""
            else if args = ["autopkg", "run", "-v", "r2"] then CmdOutcome.notFound
            else CmdOutcome.ok "")
          ⟨none, [], ["r1", "r2", "r3"], none, none, none, none⟩ "/sd"
          (fun _ => false)).1 =
        (Config.mk none [] ["r1", "r2", "r3"] none none none none).recipes.filter
          (fun r => r != "")) :=
  ⟨rfl,
   C5_recipe_isolation
     (fun args => if args = ["autopkg", "run", "-v", "r1"] then
         CmdOutcome.fail 1 "" ""
       else if args = ["autopkg", "run", "-v", "r2"] then CmdOutcome.notFound
       else CmdOutcome.ok "")
     ⟨none, [], ["r1", "r2", "r3"], none, none, none, none⟩ "/sd"
     (fun _ => false) rfl rfl rfl⟩

/-- C6 (amended): when no invoked command hits the command-not-found
condition, any failure while registering one repository — nonzero exit of
the add primitive, with the repo-list disambiguation treating a found
name/url as success and otherwise logging a warning, or any other caught
exception — does not prevent the registration attempt of any other entry:
every valid entry's `autopkg repo-add` is invoked and the step returns
normally.  (A command-not-found failure instead terminates the process from
inside `_run_command`, see `C6_notFound_aborts_counterexample`.) -/
theorem C6_repo_isolation (env : CmdEnv) (repos : List RepoEntry)
    (hnf : ∀ args, env args ≠ CmdOutcome.notFound) :
    (add_repositories env repos).2 = .ok ()
    ∧ ∀ re ∈ repos, ∀ nm u, truthyS re.name = some nm →
        truthyS re.url = some u →
        TAction.cmd ["autopkg", "repo-add", nm] ∈ (add_repositories env repos).1 := by
  induction repos with
  | nil => exact ⟨rfl, by simp⟩
  | cons repo rest ih =>
    rcases hn : truthyS repo.name with _ | name
    · rw [add_repositories_cons_skip env repo rest (Or.inl hn)]
      refine ⟨ih.1, ?_⟩
      intro re hre nm u hnm hu
      rcases List.mem_cons.mp hre with rfl | hre'
      · rw [hn] at hnm
        exact absurd hnm (by simp)
      · exact List.mem_cons_of_mem _ (ih.2 re hre' nm u hnm hu)
    · rcases hu0 : truthyS repo.url with _ | url
      · rw [add_repositories_cons_skip env repo rest (Or.inr hu0)]
        refine ⟨ih.1, ?_⟩
        intro re hre nm u hnm hu
        rcases List.mem_cons.mp hre with rfl | hre'
        · rw [hu0] at hu
          exact absurd hu (by simp)
        · exact List.mem_cons_of_mem _ (ih.2 re hre' nm u hnm hu)
      · rcases hstep : addRepoStep env name url with ⟨t, stop⟩
        have hstop : stop = none := by
          have := addRepoStep_none env name url (hnf _) (hnf _)
          rwa [hstep] at this
        subst hstop
        rw [add_repositories_cons_ok env repo rest name url t hn hu0 hstep]
        refine ⟨ih.1, ?_⟩
        intro re hre nm u hnm hu
        rcases List.mem_cons.mp hre with rfl | hre'
        · have hx : nm = name := by
            rw [hn] at hnm
            simpa using hnm.symm
          obtain ⟨t', ht'⟩ := addRepoStep_head env name url
          rw [hstep] at ht'
          simp only at ht'
          refine List.mem_append_left _ ?_
          rw [ht', hx]
          simp
        · exact List.mem_append_right _ (ih.2 re hre' nm u hnm hu)

/-- Witness for the amended C6: entry A's add primitive exits nonzero and
the repo-list output contains neither its name nor url (warning path), yet
B's registration is still attempted and the step returns normally. -/
theorem C6_repo_isolation_witness :
    (∀ args, (fun args => if args = ["autopkg", "repo-add", "A"] then
        CmdOutcome.fail 1 "" "" else CmdOutcome.ok "") args ≠
        CmdOutcome.notFound)
    ∧ ((add_repositories
        (fun args => if args = ["autopkg", "repo-add", "A"] then
          CmdOutcome.fail 1 "" "" else CmdOutcome.ok "")
        [⟨some "A", some "uA"⟩, ⟨some "B", some "uB"⟩]).2 = .ok ()
      ∧ ∀ re ∈ [RepoEntry.mk (some "A") (some "uA"),
          RepoEntry.mk (some "B") (some "uB")], ∀ nm u,
          truthyS re.name = some nm → truthyS re.url = some u →
          TAction.cmd ["autopkg", "repo-add", nm] ∈
            (add_repositories
              (fun args => if args = ["autopkg", "repo-add", "A"] then
                CmdOutcome.fail 1 "" "" else CmdOutcome.ok "")
              [⟨some "A", some "uA"⟩, ⟨some "B", some "uB"⟩]).1) :=
  ⟨fun args => by
    by_cases h : args = ["autopkg", "repo-add", "A"] <;> simp [h],
   C6_repo_isolation
     (fun args => if args = ["autopkg", "repo-add", "A"] then
       CmdOutcome.fail 1 "" "" else CmdOutcome.ok "")
     [⟨some "A", some "uA"⟩, ⟨some "B", some "uB"⟩]
     (fun args => by
       by_cases h : args = ["autopkg", "repo-add", "A"] <;> simp [h])⟩

/-- Counterexample to C6 as stated ("every failure mode"): when the add
primitive for entry A raises `FileNotFoundError` (the tool is missing),
`_run_command` calls `sys.exit(1)`; the resulting `SystemExit` is not an
`Exception`, escapes the per-repository handler, and entry B is never
attempted. -/
theorem C6_notFound_aborts_counterexample :
    ((add_repositories
        (fun args => if args = ["autopkg", "repo-add", "A"] then
          CmdOutcome.notFound else CmdOutcome.ok "")
        [⟨some "A", some "uA"⟩, ⟨some "B", some "uB"⟩]).2 =
      Except.error (PyErr.sysExit 1))
    ∧ TAction.cmd ["autopkg", "repo-add", "A"] ∈
        (add_repositories
          (fun args => if args = ["autopkg", "repo-add", "A"] then
            CmdOutcome.notFound else CmdOutcome.ok "")
          [⟨some "A", some "uA"⟩, ⟨some "B", some "uB"⟩]).1
    ∧ TAction.cmd ["autopkg", "repo-add", "B"] ∉
        (add_repositories
          (fun args => if args = ["autopkg", "repo-add", "A"] then
            CmdOutcome.notFound else CmdOutcome.ok "")
          [⟨some "A", some "uA"⟩, ⟨some "B", some "uB"⟩]).1 :=
  ⟨rfl, by decide, by decide⟩

theorem runAll_ok_attempted (env : CmdEnv) (cfg : Config) (sd : String)
    (le : String → Bool) (t1 t2 t3 : List TAction)
    (h1 : configure_munki_repo env cfg.repo_path sd le = (t1, .ok ()))
    (h2 : configure_trust_info env = (t2, .ok ()))
    (h3 : add_repositories env cfg.repos = (t3, .ok ())) :
    (runAll env cfg sd le).2 = 0
    ∧ attemptedRecipes (runAll env cfg sd le).1 =
        cfg.recipes.filter (fun r => r != "") := by
  rw [runAll_ok env cfg sd le t1 t2 t3 h1 h2 h3]
  refine ⟨rfl, ?_⟩
  have n1 : attemptedRecipes t1 = [] :=
    attemptedRecipes_eq_nil (fun nm hm =>
      configure_munki_repo_no_recipe env cfg.repo_path sd le nm
        (by rw [h1]; exact hm))
  have n2 : attemptedRecipes t2 = [] :=
    attemptedRecipes_eq_nil (fun nm hm =>
      configure_trust_info_no_recipe env nm (by rw [h2]; exact hm))
  have n3 : attemptedRecipes t3 = [] :=
    attemptedRecipes_eq_nil (fun nm hm =>
      add_repositories_no_recipe env cfg.repos nm (by rw [h3]; exact hm))
  simp only [attemptedRecipes_append, n1, n2, n3, List.nil_append,
    List.append_nil]
  exact run_recipes_attempted env cfg.recipes

/-- C7: when `repo_path` is unset (or empty) or resolves to a nonexistent
local path, the repository-path preference step logs a warning, performs no
preference write (it invokes no external command at all), and returns
normally; provided the remaining steps raise nothing uncaught, the
default-mode run exits 0 and still attempts every configured recipe. -/
theorem C7_repo_path_nonfatal (env : CmdEnv) (cfg : Config) (sd : String)
    (le : String → Bool)
    (hp : truthyS cfg.repo_path = none ∨
      ∃ p, truthyS cfg.repo_path = some p ∧ le (resolvePath sd p) = false)
    (h2 : (configure_trust_info env).2 = .ok ())
    (h3 : (add_repositories env cfg.repos).2 = .ok ()) :
    (configure_munki_repo env cfg.repo_path sd le).2 = .ok ()
    ∧ (∀ args, TAction.cmd args ∉ (configure_munki_repo env cfg.repo_path sd le).1)
    ∧ (TAction.warnNoRepoPath ∈ (configure_munki_repo env cfg.repo_path sd le).1
       ∨ TAction.warnRepoPathMissing ∈
          (configure_munki_repo env cfg.repo_path sd le).1)
    ∧ (runAll env cfg sd le).2 = 0
    ∧ attemptedRecipes (runAll env cfg sd le).1 =
        cfg.recipes.filter (fun r => r != "") := by
  have hcm : configure_munki_repo env cfg.repo_path sd le =
      ([TAction.warnNoRepoPath], .ok ())
      ∨ configure_munki_repo env cfg.repo_path sd le =
      ([TAction.warnRepoPathMissing], .ok ()) := by
    rcases hp with hp | ⟨p, hp, hx⟩
    · exact Or.inl (configure_munki_repo_none env cfg.repo_path sd le hp)
    · exact Or.inr (configure_munki_repo_missing env cfg.repo_path sd le p hp hx)
  rcases e2 : configure_trust_info env with ⟨t2, r2⟩
  rw [e2] at h2
  simp only at h2
  subst h2
  rcases e3 : add_repositories env cfg.repos with ⟨t3, r3⟩
  rw [e3] at h3
  simp only at h3
  subst h3
  rcases hcm with hcm | hcm <;>
    [refine ⟨by rw [hcm], ?_, Or.inl (by rw [hcm]; simp), ?_, ?_⟩;
     refine ⟨by rw [hcm], ?_, Or.inr (by rw [hcm]; simp), ?_, ?_⟩] <;>
  · first
    | (intro args; rw [hcm]; simp)
    | exact (runAll_ok_attempted env cfg sd le _ t2 t3 hcm e2 e3).1
    | exact (runAll_ok_attempted env cfg sd le _ t2 t3 hcm e2 e3).2

/-- Witness for C7 at the spec's example
`{repo_path: "/nonexistent", recipes: ["Firefox.munki"]}`. -/
theorem C7_repo_path_nonfatal_witness :
    ((configure_munki_repo (fun _ => CmdOutcome.ok "")
        (Config.mk (some "/nonexistent") [] ["Firefox.munki"] none none none
          none).repo_path "/sd" (fun _ => false)).2 = .ok ()
    ∧ (∀ args, TAction.cmd args ∉
        (configure_munki_repo (fun _ => CmdOutcome.ok "")
          (Config.mk (some "/nonexistent") [] ["Firefox.munki"] none none none
            none).repo_path "/sd" (fun _ => false)).1)
    ∧ (TAction.warnNoRepoPath ∈
        (configure_munki_repo (fun _ => CmdOutcome.ok "")
          (Config.mk (some "/nonexistent") [] ["Firefox.munki"] none none none
            none).repo_path "/sd" (fun _ => false)).1
       ∨ TAction.warnRepoPathMissing ∈
        (configure_munki_repo (fun _ => CmdOutcome.ok "")
          (Config.mk (some "/nonexistent") [] ["Firefox.munki"] none none none
            none).repo_path "/sd" (fun _ => false)).1)
    ∧ (runAll (fun _ => CmdOutcome.ok "")
        ⟨some "/nonexistent", [], ["Firefox.munki"], none, none, none, none⟩
        "/sd" (fun _ => false)).2 = 0
    ∧ attemptedRecipes ((runAll (fun _ => CmdOutcome.ok "")
        ⟨some "/nonexistent", [], ["Firefox.munki"], none, none, none, none⟩
        "/sd" (fun _ => false)).1) =
        (Config.mk (some "/nonexistent") [] ["Firefox.munki"] none none none
          none).recipes.filter (fun r => r != "")) :=
  C7_repo_path_nonfatal (fun _ => CmdOutcome.ok "")
    ⟨some "/nonexistent", [], ["Firefox.munki"], none, none, none, none⟩
    "/sd" (fun _ => false)
    (Or.inr ⟨"/nonexistent", rfl, rfl⟩) rfl rfl

/-- C10: the two preference operations differ in fatality.  (a) If the
`defaults write … MUNKI_REPO` invocation fails (nonzero exit, raising
`CalledProcessError`), `configure_munki_repo` re-raises it, and the
default-mode run exits 1 without attempting any repository registration or
recipe.  (b) The same failure of the `defaults write …
FAIL_RECIPES_WITHOUT_TRUST_INFO` invocation is caught inside
`configure_trust_info` (logged as a warning), and the run continues and
exits 0, attempting every configured recipe. -/
theorem C10_preference_failure_asymmetry :
    (∀ (env : CmdEnv) (cfg : Config) (sd : String) (le : String → Bool)
      (p : String) (c : Nat) (so se : String),
      truthyS cfg.repo_path = some p →
      le (resolvePath sd p) = true →
      env ["defaults", "write", "com.github.autopkg", "MUNKI_REPO",
        resolvePath sd p] = .fail c so se →
      (runAll env cfg sd le).2 = 1
      ∧ (∀ nm, TAction.cmd ["autopkg", "repo-add", nm] ∉ (runAll env cfg sd le).1)
      ∧ attemptedRecipes (runAll env cfg sd le).1 = [])
    ∧ (∀ (env : CmdEnv) (cfg : Config) (sd : String) (le : String → Bool)
      (c : Nat) (so se : String),
      (configure_munki_repo env cfg.repo_path sd le).2 = .ok () →
      env ["defaults", "write", "com.github.autopkg",
        "FAIL_RECIPES_WITHOUT_TRUST_INFO", "-bool", "false"] = .fail c so se →
      (add_repositories env cfg.repos).2 = .ok () →
      (configure_trust_info env).2 = .ok ()
      ∧ (runAll env cfg sd le).2 = 0
      ∧ attemptedRecipes (runAll env cfg sd le).1 =
          cfg.recipes.filter (fun r => r != "")) := by
  constructor
  · intro env cfg sd le p c so se hp hx henv
    have hcm : configure_munki_repo env cfg.repo_path sd le =
        ([TAction.cmd ["defaults", "write", "com.github.autopkg", "MUNKI_REPO",
          resolvePath sd p]], .error (.exc "CalledProcessError")) := by
      rw [configure_munki_repo_write env cfg.repo_path sd le p hp hx]
      simp [run_command, henv]
    rw [runAll_munki_exc env cfg sd le _ _ hcm]
    refine ⟨rfl, ?_, by simp [attemptedRecipes]⟩
    intro nm
    simp
  · intro env cfg sd le c so se h1 henv h3
    have ht : configure_trust_info env =
        ([TAction.cmd ["defaults", "write", "com.github.autopkg",
          "FAIL_RECIPES_WITHOUT_TRUST_INFO", "-bool", "false"]], .ok ()) :=
      configure_trust_info_fail env c so se henv
    rcases e1 : configure_munki_repo env cfg.repo_path sd le with ⟨t1, r1⟩
    rw [e1] at h1
    simp only at h1
    subst h1
    rcases e3 : add_repositories env cfg.repos with ⟨t3, r3⟩
    rw [e3] at h3
    simp only at h3
    subst h3
    exact ⟨by rw [ht],
      (runAll_ok_attempted env cfg sd le t1 _ t3 e1 ht e3).1,
      (runAll_ok_attempted env cfg sd le t1 _ t3 e1 ht e3).2⟩

/-- Witness for C10: the same `defaults write` failure is fatal when it hits
the `MUNKI_REPO` write and non-fatal when it hits the trust-suppression
write. -/
theorem C10_preference_failure_asymmetry_witness :
    ((runAll
        (fun args => if args = ["defaults", "write", "com.github.autopkg",
          "MUNKI_REPO", "/repo"] then CmdOutcome.fail 1 "" ""
          else CmdOutcome.ok "")
        ⟨some "/repo", [⟨some "A", some "uA"⟩], ["r1"], none, none, none, none⟩
        "/sd" (fun _ => true)).2 = 1
      ∧ (∀ nm, TAction.cmd ["autopkg", "repo-add", nm] ∉
          (runAll
            (fun args => if args = ["defaults", "write", "com.github.autopkg",
              "MUNKI_REPO", "/repo"] then CmdOutcome.fail 1 "" ""
              else CmdOutcome.ok "")
            ⟨some "/repo", [⟨some "A", some "uA"⟩], ["r1"], none, none, none,
              none⟩ "/sd" (fun _ => true)).1)
      ∧ attemptedRecipes (runAll
          (fun args => if args = ["defaults", "write", "com.github.autopkg",
            "MUNKI_REPO", "/repo"] then CmdOutcome.fail 1 "" ""
            else CmdOutcome.ok "")
          ⟨some "/repo", [⟨some "A", some "uA"⟩], ["r1"], none, none, none,
            none⟩ "/sd" (fun _ => true)).1 = [])
    ∧ ((configure_trust_info
        (fun args => if args = ["defaults", "write", "com.github.autopkg",
          "FAIL_RECIPES_WITHOUT_TRUST_INFO", "-bool", "false"] then
          CmdOutcome.fail 1 "" "" else CmdOutcome.ok "")).2 = .ok ()
      ∧ (runAll
          (fun args => if args = ["defaults", "write", "com.github.autopkg",
            "FAIL_RECIPES_WITHOUT_TRUST_INFO", "-bool", "false"] then
            CmdOutcome.fail 1 "" "" else CmdOutcome.ok "")
          ⟨some "/repo", [⟨some "A", some "uA"⟩], ["r1"], none, none, none,
            none⟩ "/sd" (fun _ => true)).2 = 0
      ∧ attemptedRecipes (runAll
          (fun args => if args = ["defaults", "write", "com.github.autopkg",
            "FAIL_RECIPES_WITHOUT_TRUST_INFO", "-bool", "false"] then
            CmdOutcome.fail 1 "" "" else CmdOutcome.ok "")
          ⟨some "/repo", [⟨some "A", some "uA"⟩], ["r1"], none, none, none,
            none⟩ "/sd" (fun _ => true)).1 =
        (Config.mk (some "/repo") [⟨some "A", some "uA"⟩] ["r1"] none none
          none none).recipes.filter (fun r => r != "")) :=
  ⟨C10_preference_failure_asymmetry.1
    (fun args => if args = ["defaults", "write", "com.github.autopkg",
      "MUNKI_REPO", "/repo"] then CmdOutcome.fail 1 "" "" else CmdOutcome.ok "")
    ⟨some "/repo", [⟨some "A", some "uA"⟩], ["r1"], none, none, none, none⟩
    "/sd" (fun _ => true) "/repo" 1 "" "" rfl rfl (by decide),
   C10_preference_failure_asymmetry.2
    (fun args => if args = ["defaults", "write", "com.github.autopkg",
      "FAIL_RECIPES_WITHOUT_TRUST_INFO", "-bool", "false"] then
      CmdOutcome.fail 1 "" "" else CmdOutcome.ok "")
    ⟨some "/repo", [⟨some "A", some "uA"⟩], ["r1"], none, none, none, none⟩
    "/sd" (fun _ => true) 1 "" "" rfl (by decide) rfl⟩

/-! ## Idempotent directory creation (C3) -/

mutual
/-- The remote directory paths a mirror of this subtree creates or requires
(the "target directories"): the path of every directory node, the subtree's
own base included. -/
def dirPathsEntry : Entry → RPath → List RPath
  | .file _, _ => []
  | .dir cs, base => base :: dirPathsList cs base

/-- List-level helper of `dirPathsEntry`. -/
def dirPathsList : List (String × Entry) → RPath → List RPath
  | [], _ => []
  | (n, e) :: rest, base =>
    dirPathsEntry e (base ++ [n]) ++ dirPathsList rest base
end

mutual
/-- The remote paths of the files a mirror of this subtree uploads. -/
def filePathsEntry : Entry → RPath → List RPath
  | .file _, base => [base]
  | .dir cs, base => filePathsList cs base

/-- List-level helper of `filePathsEntry`. -/
def filePathsList : List (String × Entry) → RPath → List RPath
  | [], _ => []
  | (n, e) :: rest, base =>
    filePathsEntry e (base ++ [n]) ++ filePathsList rest base
end

mutual
/-- Every target directory path extends the subtree's base. -/
theorem dirPathsEntry_le (e : Entry) (base : RPath) {p : RPath}
    (h : p ∈ dirPathsEntry e base) : pathLe base p := by
  cases e with
  | file c => simp [dirPathsEntry] at h
  | dir cs =>
    rcases List.mem_cons.mp (by simpa [dirPathsEntry] using h) with rfl | h'
    · exact pathLe_refl p
    · exact dirPathsList_le cs base h'

/-- List-level version of `dirPathsEntry_le`. -/
theorem dirPathsList_le (cs : List (String × Entry)) (base : RPath)
    {p : RPath} (h : p ∈ dirPathsList cs base) : pathLe base p := by
  cases cs with
  | nil => simp [dirPathsList] at h
  | cons hd rest =>
    obtain ⟨n, e⟩ := hd
    rcases List.mem_append.mp (by simpa [dirPathsList] using h) with h' | h'
    · exact pathLe_of_snoc (dirPathsEntry_le e (base ++ [n]) h')
    · exact dirPathsList_le rest base h'
end

mutual
/-- Every uploaded file path extends the subtree's base. -/
theorem filePathsEntry_le (e : Entry) (base : RPath) {p : RPath}
    (h : p ∈ filePathsEntry e base) : pathLe base p := by
  cases e with
  | file c =>
    simp only [filePathsEntry, List.mem_singleton] at h
    exact h ▸ pathLe_refl base
  | dir cs => exact filePathsList_le cs base (by simpa [filePathsEntry] using h)

/-- List-level version of `filePathsEntry_le`. -/
theorem filePathsList_le (cs : List (String × Entry)) (base : RPath)
    {p : RPath} (h : p ∈ filePathsList cs base) : pathLe base p := by
  cases cs with
  | nil => simp [filePathsList] at h
  | cons hd rest =>
    obtain ⟨n, e⟩ := hd
    rcases List.mem_append.mp (by simpa [filePathsList] using h) with h' | h'
    · exact pathLe_of_snoc (filePathsEntry_le e (base ++ [n]) h')
    · exact filePathsList_le rest base h'
end

theorem filePathsList_decompose (cs : List (String × Entry)) (base : RPath)
    {p : RPath} (h : p ∈ filePathsList cs base) :
    ∃ n e, (n, e) ∈ cs ∧ p ∈ filePathsEntry e (base ++ [n]) := by
  induction cs with
  | nil => simp [filePathsList] at h
  | cons hd rest ih =>
    obtain ⟨n, e⟩ := hd
    rcases List.mem_append.mp (by simpa [filePathsList] using h) with h' | h'
    · exact ⟨n, e, by simp, h'⟩
    · obtain ⟨n', e', hm, hp⟩ := ih h'
      exact ⟨n', e', List.mem_cons_of_mem _ hm, hp⟩

theorem dirPathsList_decompose (cs : List (String × Entry)) (base : RPath)
    {p : RPath} (h : p ∈ dirPathsList cs base) :
    ∃ n e, (n, e) ∈ cs ∧ p ∈ dirPathsEntry e (base ++ [n]) := by
  induction cs with
  | nil => simp [dirPathsList] at h
  | cons hd rest ih =>
    obtain ⟨n, e⟩ := hd
    rcases List.mem_append.mp (by simpa [dirPathsList] using h) with h' | h'
    · exact ⟨n, e, by simp, h'⟩
    · obtain ⟨n', e', hm, hp⟩ := ih h'
      exact ⟨n', e', List.mem_cons_of_mem _ hm, hp⟩

mutual
/-- In a wellformed tree, no target directory path is also an uploaded file
path. -/
theorem dirFile_disjointEntry (e : Entry) (base : RPath)
    (hwf : wfEntry e = true) {p : RPath} (hd : p ∈ dirPathsEntry e base) :
    p ∉ filePathsEntry e base := by
  cases e with
  | file c => simp [dirPathsEntry] at hd
  | dir cs =>
    intro hf
    have hf' : p ∈ filePathsList cs base := by simpa [filePathsEntry] using hf
    rcases List.mem_cons.mp (by simpa [dirPathsEntry] using hd) with rfl | hd'
    · obtain ⟨n, e', _, hp⟩ := filePathsList_decompose cs p hf'
      have := pathLe_length (filePathsEntry_le e' (p ++ [n]) hp)
      simp at this
    · exact dirFile_disjointList cs base (by simpa [wfEntry] using hwf) hd' hf'

/-- List-level version of `dirFile_disjointEntry`. -/
theorem dirFile_disjointList (cs : List (String × Entry)) (base : RPath)
    (hwf : wfList cs = true) {p : RPath} (hd : p ∈ dirPathsList cs base) :
    p ∉ filePathsList cs base := by
  cases cs with
  | nil => simp [dirPathsList] at hd
  | cons hd0 rest =>
    obtain ⟨n, e⟩ := hd0
    obtain ⟨-, hnames, hwfe, hwfr⟩ := wfList_cons hwf
    intro hf
    rcases List.mem_append.mp (by simpa [dirPathsList] using hd) with hdh | hdr
    · rcases List.mem_append.mp (by simpa [filePathsList] using hf) with hfh | hfr
      · exact dirFile_disjointEntry e (base ++ [n]) hwfe hdh hfh
      · obtain ⟨m, e'', hm, hp⟩ := filePathsList_decompose rest base hfr
        have hnm : n = m := pathLe_snoc_inj
          (dirPathsEntry_le e (base ++ [n]) hdh)
          (filePathsEntry_le e'' (base ++ [m]) hp)
        exact hnames (m, e'') hm (by simp [hnm])
    · rcases List.mem_append.mp (by simpa [filePathsList] using hf) with hfh | hfr
      · obtain ⟨m, e'', hm, hp⟩ := dirPathsList_decompose rest base hdr
        have hnm : n = m := pathLe_snoc_inj
          (filePathsEntry_le e (base ++ [n]) hfh)
          (dirPathsEntry_le e'' (base ++ [m]) hp)
        exact hnames (m, e'') hm (by simp [hnm])
      · exact dirFile_disjointList rest base hwfr hdr hfr
end

mutual
/-- The target directory set is closed under directory ancestors between the
base and any member. -/
theorem dirPaths_closedEntry (e : Entry) (base : RPath) {p q : RPath}
    (hp : p ∈ dirPathsEntry e base) (hbq : pathLe base q)
    (hqp : pathLe q p) : q ∈ dirPathsEntry e base := by
  cases e with
  | file c => simp [dirPathsEntry] at hp
  | dir cs =>
    simp only [dirPathsEntry, List.mem_cons] at hp ⊢
    rcases hp with rfl | hp'
    · exact Or.inl (pathLe_antisymm hbq hqp).symm
    · by_cases hqb : q = base
      · exact Or.inl hqb
      · exact Or.inr (dirPaths_closedList cs base hp' hbq hqb hqp)

/-- List-level version of `dirPaths_closedEntry`. -/
theorem dirPaths_closedList (cs : List (String × Entry)) (base : RPath)
    {p q : RPath} (hp : p ∈ dirPathsList cs base) (hbq : pathLe base q)
    (hqb : q ≠ base) (hqp : pathLe q p) : q ∈ dirPathsList cs base := by
  cases cs with
  | nil => simp [dirPathsList] at hp
  | cons hd0 rest =>
    obtain ⟨n, e⟩ := hd0
    simp only [dirPathsList, List.mem_append] at hp ⊢
    rcases hp with hph | hpr
    · obtain ⟨x, t, hq⟩ := pathLe_split hbq (fun h => hqb h.symm)
      have hxq : pathLe (base ++ [x]) q := ⟨t, hq.symm⟩
      have hxn : x = n := pathLe_snoc_inj (pathLe_trans hxq hqp)
        (dirPathsEntry_le e (base ++ [n]) hph)
      exact Or.inl (dirPaths_closedEntry e (base ++ [n]) hph
        (hxn ▸ hxq) hqp)
    · exact Or.inr (dirPaths_closedList rest base hpr hbq hqb hqp)
end

mutual
/-- In a wellformed tree over a base without empty segments, no target
directory path contains an empty segment. -/
theorem dirPaths_ne_entry (e : Entry) (base : RPath) (hwf : wfEntry e = true)
    (hb : ∀ s ∈ base, s ≠ "") {p : RPath} (hp : p ∈ dirPathsEntry e base) :
    ∀ s ∈ p, s ≠ "" := by
  cases e with
  | file c => simp [dirPathsEntry] at hp
  | dir cs =>
    rcases List.mem_cons.mp (by simpa [dirPathsEntry] using hp) with rfl | hp'
    · exact hb
    · exact dirPaths_ne_list cs base (by simpa [wfEntry] using hwf) hb hp'

/-- List-level version of `dirPaths_ne_entry`. -/
theorem dirPaths_ne_list (cs : List (String × Entry)) (base : RPath)
    (hwf : wfList cs = true) (hb : ∀ s ∈ base, s ≠ "") {p : RPath}
    (hp : p ∈ dirPathsList cs base) : ∀ s ∈ p, s ≠ "" := by
  cases cs with
  | nil => simp [dirPathsList] at hp
  | cons hd0 rest =>
    obtain ⟨n, e⟩ := hd0
    obtain ⟨hn, -, hwfe, hwfr⟩ := wfList_cons hwf
    rcases List.mem_append.mp (by simpa [dirPathsList] using hp) with hph | hpr
    · refine dirPaths_ne_entry e (base ++ [n]) hwfe ?_ hph
      intro s hs
      rcases List.mem_append.mp hs with hs | hs
      · exact hb s hs
      · simp at hs
        exact hs ▸ hn
    · exact dirPaths_ne_list rest base hwfr hb hpr
end

/-- Invariant tying a remote state to the target sets: every existing remote
directory is a target directory and every existing remote file is a target
file. -/
def RInv (D F : List RPath) (r : Remote) : Prop :=
  (∀ d ∈ r.dirs, d ∈ D) ∧ (∀ pc ∈ r.files, pc.1 ∈ F)

theorem statB_cases (r : Remote) (p : RPath) (h : statB r p = true) :
    p = [] ∨ p ∈ r.dirs ∨ ∃ pc ∈ r.files, pc.1 = p := by
  simp only [statB, Bool.or_eq_true, List.isEmpty_iff, List.any_eq_true,
    decide_eq_true_eq] at h
  rcases h with (h | h) | h
  · exact Or.inl h
  · obtain ⟨d, hd, rfl⟩ := h
    exact Or.inr (Or.inl hd)
  · obtain ⟨pc, hpc, hp⟩ := h
    exact Or.inr (Or.inr ⟨pc, hpc, hp⟩)

theorem statB_false_not_dir (r : Remote) (p : RPath)
    (h : statB r p = false) : p ∉ r.dirs := by
  intro hd
  simp only [statB, Bool.or_eq_true, List.any_eq_true, decide_eq_true_eq,
    Bool.or_eq_false_iff, List.any_eq_false] at h
  exact h.1.2 p hd rfl

theorem dirOrRoot_true (r : Remote) (q : RPath)
    (h : q ∈ r.dirs ∨ q = []) : dirOrRoot r q = true := by
  rcases h with h | h
  · simp only [dirOrRoot, Bool.or_eq_true, List.any_eq_true,
      decide_eq_true_eq]
    exact Or.inr ⟨q, h, rfl⟩
  · simp [dirOrRoot, h]

theorem ensureSegs_cons_skip (r : Remote) (current : RPath) (rest : List String) :
    ensureSegs r current ("" :: rest) = ensureSegs r current rest := by
  conv_lhs => unfold ensureSegs
  simp

theorem ensureSegs_cons_stat (r : Remote) (current : RPath) (part : String)
    (rest : List String) (hpart : part ≠ "")
    (hs : statB r (current ++ [part]) = true) :
    ensureSegs r current (part :: rest) =
      ensureSegs r (current ++ [part]) rest := by
  conv_lhs => unfold ensureSegs
  simp [hpart, hs]

theorem ensureSegs_cons_miss (r : Remote) (current : RPath) (part : String)
    (rest : List String) (hpart : part ≠ "")
    (hs : statB r (current ++ [part]) = false) :
    ensureSegs r current (part :: rest) =
      ((ensureSegs (if canMkdir r (current ++ [part]) then
          { r with dirs := (current ++ [part]) :: r.dirs } else r)
          (current ++ [part]) rest).1,
       SEvent.mkdir (current ++ [part]) ::
         (ensureSegs (if canMkdir r (current ++ [part]) then
           { r with dirs := (current ++ [part]) :: r.dirs } else r)
           (current ++ [part]) rest).2) := by
  conv_lhs => unfold ensureSegs
  simp [hpart, hs]

theorem ensureSegs_success (D F : List RPath)
    (hDcl : ∀ p ∈ D, ∀ q, pathLe q p → q ∈ D)
    (hDF : ∀ p ∈ D, p ∉ F)
    (segs : List String) (r : Remote) (current : RPath) (p : RPath)
    (hcp : current ++ segs = p) (hpD : p ∈ D) (hInv : RInv D F r)
    (hcur : current ∈ r.dirs ∨ current = [])
    (hne : ∀ s ∈ segs, s ≠ "") :
    RInv D F (ensureSegs r current segs).1
    ∧ (p ∈ (ensureSegs r current segs).1.dirs ∨ p = [])
    ∧ (∀ d ∈ r.dirs, d ∈ (ensureSegs r current segs).1.dirs) := by
  induction segs generalizing r current with
  | nil =>
    simp only [List.append_nil] at hcp
    subst hcp
    exact ⟨hInv, hcur, fun d hd => hd⟩
  | cons part rest ih =>
    have hpart : part ≠ "" := hne part (by simp)
    have hne' : ∀ s ∈ rest, s ≠ "" := fun s hs =>
      hne s (List.mem_cons_of_mem _ hs)
    have hle : pathLe (current ++ [part]) p :=
      ⟨rest, by rw [← hcp]; simp⟩
    have hcurD : (current ++ [part]) ∈ D := hDcl p hpD _ hle
    have hcp' : (current ++ [part]) ++ rest = p := by rw [← hcp]; simp
    by_cases hs : statB r (current ++ [part]) = true
    · have hcd : (current ++ [part]) ∈ r.dirs := by
        rcases statB_cases r _ hs with h0 | hdir | ⟨pc, hpc, hpc1⟩
        · exact absurd h0 (by simp)
        · exact hdir
        · exact absurd (hpc1 ▸ hInv.2 pc hpc) (hDF _ hcurD)
      rw [ensureSegs_cons_stat r current part rest hpart hs]
      exact ih r (current ++ [part]) hcp' hInv (Or.inl hcd) hne'
    · have hsf : statB r (current ++ [part]) = false := by
        simpa using hs
      have hcm : canMkdir r (current ++ [part]) = true := by
        simp only [canMkdir, Bool.and_eq_true, Bool.not_eq_true']
        refine ⟨?_, hsf⟩
        have hdl : (current ++ [part]).dropLast = current := by simp
        rw [hdl]
        exact dirOrRoot_true r current hcur
      rw [ensureSegs_cons_miss r current part rest hpart hsf]
      simp only [hcm, if_true]
      have hInv' : RInv D F { r with dirs := (current ++ [part]) :: r.dirs } := by
        refine ⟨?_, hInv.2⟩
        intro d hd
        rcases List.mem_cons.mp hd with rfl | hd'
        · exact hcurD
        · exact hInv.1 d hd'
      have hrec := ih { r with dirs := (current ++ [part]) :: r.dirs }
        (current ++ [part]) hcp' hInv' (Or.inl (by simp)) hne'
      refine ⟨hrec.1, hrec.2.1, ?_⟩
      intro d hd
      exact hrec.2.2 d (by simp [hd])

theorem ensure_remote_directory_success (D F : List RPath)
    (hDcl : ∀ p ∈ D, ∀ q, pathLe q p → q ∈ D)
    (hDF : ∀ p ∈ D, p ∉ F)
    (r : Remote) (p : RPath) (hpD : p ∈ D) (hInv : RInv D F r)
    (hne : ∀ s ∈ p, s ≠ "") :
    RInv D F (ensure_remote_directory r p).1
    ∧ (p ∈ (ensure_remote_directory r p).1.dirs ∨ p = [])
    ∧ (∀ d ∈ r.dirs, d ∈ (ensure_remote_directory r p).1.dirs) := by
  by_cases hs : statB r p = true
  · have hmem : p ∈ r.dirs ∨ p = [] := by
      rcases statB_cases r p hs with h0 | hdir | ⟨pc, hpc, hpc1⟩
      · exact Or.inr h0
      · exact Or.inl hdir
      · exact absurd (hpc1 ▸ hInv.2 pc hpc) (hDF p hpD)
    simp only [ensure_remote_directory, hs, if_true]
    exact ⟨hInv, hmem, fun d hd => hd⟩
  · have hsf : statB r p = false := by simpa using hs
    have hes := ensureSegs_success D F hDcl hDF p r [] p (by simp) hpD hInv
      (Or.inr rfl) hne
    simp only [ensure_remote_directory, hsf]
    simp only [Bool.false_eq_true, if_false]
    rcases hseg : ensureSegs r [] p with ⟨r', evs⟩
    rw [hseg] at hes
    exact hes

mutual
/-- If every pre-existing remote entry is among the mirror's targets (and
there are only directories among them, captured by `RInv` with the target
sets), the walk of the subtree succeeds and preserves the invariant. -/
theorem uploadEntry_success (D F : List RPath)
    (hDcl : ∀ p ∈ D, ∀ q, pathLe q p → q ∈ D)
    (hDF : ∀ p ∈ D, p ∉ F)
    (hDne : ∀ p ∈ D, ∀ s ∈ p, s ≠ "")
    (r : Remote) (e : Entry) (base : RPath)
    (hInv : RInv D F r)
    (hpar : base.dropLast ∈ r.dirs ∨ base.dropLast = [])
    (hsubD : ∀ x ∈ dirPathsEntry e base, x ∈ D)
    (hsubF : ∀ x ∈ filePathsEntry e base, x ∈ F) :
    (uploadEntry r e base).2.2 = none
    ∧ RInv D F (uploadEntry r e base).1
    ∧ (∀ d ∈ r.dirs, d ∈ (uploadEntry r e base).1.dirs) := by
  cases e with
  | file c =>
    have hbF : base ∈ F := hsubF base (by simp [filePathsEntry])
    have hcp : canPut r base = true := by
      simp only [canPut, Bool.and_eq_true, Bool.not_eq_true']
      refine ⟨dirOrRoot_true r _ hpar, ?_⟩
      simp only [List.any_eq_false, decide_eq_true_eq]
      intro d hd hdb
      exact hDF d (hInv.1 d hd) (hdb ▸ hbF)
    rw [uploadEntry_file]
    simp only [hcp, if_true]
    refine ⟨by trivial, ⟨hInv.1, ?_⟩, fun d hd => hd⟩
    intro pc hpc
    rcases List.mem_cons.mp hpc with rfl | hpc'
    · exact hbF
    · exact hInv.2 pc hpc'
  | dir cs =>
    have hbD : base ∈ D := hsubD base (by simp [dirPathsEntry])
    have hens := ensure_remote_directory_success D F hDcl hDF r base hbD hInv
      (hDne base hbD)
    rw [uploadEntry_dir]
    simp only
    have hlist := uploadList_success D F hDcl hDF hDne
      (ensure_remote_directory r base).1 cs base hens.1 hens.2.1
      (fun x hx => hsubD x (by simp [dirPathsEntry]; exact Or.inr hx))
      (fun x hx => hsubF x (by simpa [filePathsEntry] using hx))
    exact ⟨hlist.1, hlist.2.1, fun d hd => hlist.2.2 d (hens.2.2 d hd)⟩

/-- List-level version of `uploadEntry_success`. -/
theorem uploadList_success (D F : List RPath)
    (hDcl : ∀ p ∈ D, ∀ q, pathLe q p → q ∈ D)
    (hDF : ∀ p ∈ D, p ∉ F)
    (hDne : ∀ p ∈ D, ∀ s ∈ p, s ≠ "")
    (r : Remote) (items : List (String × Entry)) (base : RPath)
    (hInv : RInv D F r)
    (hbase : base ∈ r.dirs ∨ base = [])
    (hsubD : ∀ x ∈ dirPathsList items base, x ∈ D)
    (hsubF : ∀ x ∈ filePathsList items base, x ∈ F) :
    (uploadList r items base).2.2 = none
    ∧ RInv D F (uploadList r items base).1
    ∧ (∀ d ∈ r.dirs, d ∈ (uploadList r items base).1.dirs) := by
  cases items with
  | nil => rw [uploadList_nil]; exact ⟨rfl, hInv, fun d hd => hd⟩
  | cons hd0 rest =>
    obtain ⟨n, e⟩ := hd0
    have hentry := uploadEntry_success D F hDcl hDF hDne r e (base ++ [n])
      hInv (by simpa using hbase)
      (fun x hx => hsubD x (by simp [dirPathsList]; exact Or.inl hx))
      (fun x hx => hsubF x (by simp [filePathsList]; exact Or.inl hx))
    rcases h1 : uploadEntry r e (base ++ [n]) with ⟨r1, evs1, err1⟩
    rw [h1] at hentry
    simp only at hentry
    obtain ⟨herr, hInv1, hmono1⟩ := hentry
    subst herr
    rw [uploadList_cons_ok r r1 n e rest base evs1 h1]
    simp only
    have hbase1 : base ∈ r1.dirs ∨ base = [] := by
      rcases hbase with hb | hb
      · exact Or.inl (hmono1 base hb)
      · exact Or.inr hb
    have hrest := uploadList_success D F hDcl hDF hDne r1 rest base hInv1
      hbase1
      (fun x hx => hsubD x (by simp [dirPathsList]; exact Or.inr hx))
      (fun x hx => hsubF x (by simp [filePathsList]; exact Or.inr hx))
    exact ⟨hrest.1, hrest.2.1, fun d hd => hrest.2.2 d (hmono1 d hd)⟩
end

/-- C3: mirroring a wellformed tree into a remote whose pre-existing entries
are directories among the mirror's own target directories never fails: the
probe skips existing segments, a creation attempt on an existing segment is
tolerated (mkdir failures are swallowed), and the whole walk returns without
error. -/
theorem C3_preexisting_dirs_ok (tree : List (String × Entry)) (r : Remote)
    (hwf : wfEntry (.dir tree) = true)
    (hdirs : ∀ d ∈ r.dirs, d ∈ dirPathsEntry (.dir tree) [])
    (hfiles : r.files = []) :
    (uploadEntry r (.dir tree) []).2.2 = none := by
  have hDcl : ∀ p ∈ dirPathsEntry (Entry.dir tree) [], ∀ q, pathLe q p →
      q ∈ dirPathsEntry (Entry.dir tree) [] := fun p hp q hq =>
    dirPaths_closedEntry (Entry.dir tree) [] hp (pathLe_nil q) hq
  have hDF : ∀ p ∈ dirPathsEntry (Entry.dir tree) [],
      p ∉ filePathsEntry (Entry.dir tree) [] := fun p hp =>
    dirFile_disjointEntry (Entry.dir tree) [] hwf hp
  have hDne : ∀ p ∈ dirPathsEntry (Entry.dir tree) [], ∀ s ∈ p, s ≠ "" :=
    fun p hp => dirPaths_ne_entry (Entry.dir tree) [] hwf (by simp) hp
  have hInv : RInv (dirPathsEntry (Entry.dir tree) [])
      (filePathsEntry (Entry.dir tree) []) r := by
    refine ⟨hdirs, ?_⟩
    intro pc hpc
    rw [hfiles] at hpc
    exact absurd hpc (List.not_mem_nil pc)
  exact (uploadEntry_success (dirPathsEntry (Entry.dir tree) [])
    (filePathsEntry (Entry.dir tree) []) hDcl hDF hDne r (Entry.dir tree) []
    hInv (Or.inr rfl) (fun x hx => hx) (fun x hx => hx)).1

/-- Witness for C3: the remote already contains the target directories `/A`
and `/A/B` (a partial previous run); the mirror still succeeds. -/
theorem C3_preexisting_dirs_ok_witness :
    (wfEntry (.dir [("A", Entry.dir [("B", Entry.dir [("f", Entry.file [1])])]),
      ("g", Entry.file [2])]) = true)
    ∧ (∀ d ∈ (Remote.mk [["A"], ["A", "B"]] []).dirs,
        d ∈ dirPathsEntry (.dir [("A", Entry.dir [("B", Entry.dir
          [("f", Entry.file [1])])]), ("g", Entry.file [2])]) [])
    ∧ (uploadEntry ⟨[["A"], ["A", "B"]], []⟩
        (.dir [("A", Entry.dir [("B", Entry.dir [("f", Entry.file [1])])]),
          ("g", Entry.file [2])]) []).2.2 = none :=
  ⟨by decide, by decide,
   C3_preexisting_dirs_ok
     [("A", Entry.dir [("B", Entry.dir [("f", Entry.file [1])])]),
      ("g", Entry.file [2])]
     ⟨[["A"], ["A", "B"]], []⟩ (by decide) (by decide) rfl⟩
